import Mathlib

/-
Verification of the Rating & Standings Engine with Deterministic Recalculation
and Tournament Lifecycle State Machine of the bazaarelo application
(src/app.py).  The Python source is shallowly embedded: SQLAlchemy tables
become lists of records inside an explicit `DB` state, queries become list
traversals in stored (rowid) order, request handlers become functions from a
`DB` (plus the caller and its session) to an outcome together with the
committed `DB`.  Handlers that answer an HTTP error without committing return
the input state unchanged; an uncaught Python exception is modelled as
`Except.error` (the transaction is rolled back, so no state is returned).

The source computes expected Elo scores in floating point
(`1 / (1 + 10 ** ((elo_b - elo_a) / 400))`).  The model uses exact fraction
arithmetic; the float exponent `(elo_b - elo_a) / 400` is modelled by its
integer floor, which agrees exactly with the source whenever the rating
difference is a multiple of 400.  Every concrete state at which a theorem
below evaluates the rating engine keeps all rating differences on that grid,
so each such evaluation reproduces the source's float result exactly.
-/

namespace Bazaar

deriving instance DecidableEq for Except

/-- Exact fraction with positive denominator, unnormalized (no gcd), so that
all arithmetic reduces inside the kernel. -/
structure Frac where
  num : Int
  den : Int
  deriving DecidableEq

def Frac.ofInt (n : Int) : Frac := ⟨n, 1⟩

def Frac.add (a b : Frac) : Frac := ⟨a.num * b.den + b.num * a.den, a.den * b.den⟩

def Frac.sub (a b : Frac) : Frac := ⟨a.num * b.den - b.num * a.den, a.den * b.den⟩

def Frac.mul (a b : Frac) : Frac := ⟨a.num * b.num, a.den * b.den⟩

def Frac.inv (a : Frac) : Frac := if a.num < 0 then ⟨-a.den, -a.num⟩ else ⟨a.den, a.num⟩

def Frac.div (a b : Frac) : Frac := a.mul b.inv

/-- Floor of a fraction with positive denominator (`Int.fdiv` floors). -/
def Frac.floor (a : Frac) : Int := a.num.fdiv a.den

/-- The interpretation of a `Frac` as a rational number (used in statements
only, never in computation). -/
def Frac.val (a : Frac) : ℚ := (a.num : ℚ) / (a.den : ℚ)

/-- Python's builtin `round`: nearest integer, ties to even. -/
def pyRound (q : Frac) : Int :=
  let f := q.floor
  let r := q.num - f * q.den
  if 2 * r < q.den then f
  else if q.den < 2 * r then f + 1
  else if f % 2 = 0 then f else f + 1

/-- Models the source's float `10 ** e` for an integer exponent `e`
(exact: Python computes integral powers of ten below 10^23 exactly). -/
def tenPowInt (e : Int) : Frac :=
  if 0 ≤ e then ⟨(10 : Int) ^ e.toNat, 1⟩ else ⟨1, (10 : Int) ^ (-e).toNat⟩

/-- Models the source's float `10 ** q`.  Exact whenever `q` is an integer
(the only exponents at which the theorems in this file evaluate it); a
non-integral exponent is floored, standing in for the float power the source
would compute there. -/
def tenPow (q : Frac) : Frac := tenPowInt q.floor

/-- `DEFAULT_ELO = 1000` (src/app.py line 72). -/
def DEFAULT_ELO : Int := 1000

/-- `ELO_DIVISOR = DEFAULT_ELO / 2.5`; the source's float division yields
exactly 400.0 (src/app.py line 73). -/
def ELO_DIVISOR : Frac := ⟨400, 1⟩

/-- Row of the `Player` table (columns relevant to the core: `id`, `elo`).
The source's `recalculate_elo_from_timestamp` also assigns
`player.casual_elo`, but the `Player` model declares no such column, so the
assignment creates a transient Python attribute and persists nothing; it is
therefore not modelled. -/
structure PlayerRow where
  id : Nat
  elo : Int
  deriving DecidableEq

/-- Row of the `Tournament` table (core columns). `submittedAt` is the
`submitted_at` timestamp, modelled as an integer order key. -/
structure TournamentRow where
  id : Nat
  pending : Bool
  casual : Bool
  premium : Bool
  importedFromText : Bool
  topCut : Option Int
  confirmToken : Option String
  editToken : Option String
  storeId : Option Nat
  userId : Option String
  submittedAt : Int
  deriving DecidableEq

/-- Row of the `TournamentPlayer` membership table. -/
structure TournamentPlayerRow where
  tournamentId : Nat
  playerId : Nat
  deriving DecidableEq

/-- Row of the `Match` table. -/
structure MatchRow where
  id : Nat
  tournamentId : Nat
  roundNum : Int
  player1Id : Option Nat
  player2Id : Option Nat
  result : String
  deriving DecidableEq

/-- Row of the `Deck` table (columns relevant to cascade deletion). -/
structure DeckRow where
  id : Nat
  tournamentId : Option Nat
  deriving DecidableEq

/-- Row of the `Store` table (token columns). -/
structure StoreRow where
  id : Nat
  premium : Bool
  competitiveTokens : Int
  premiumTokens : Int
  deriving DecidableEq

/-- Row of the `CasualPointsHistory` table (columns read by standings). -/
structure CasualPointsRow where
  tournamentId : Nat
  playerId : Nat
  points : Int
  deriving DecidableEq

/-- The persisted database state.  Each list holds the table's rows in
stored (rowid / insertion) order; a query without `order_by` returns rows in
this order. -/
@[ext]
structure DB where
  players : List PlayerRow
  tournaments : List TournamentRow
  tournamentPlayers : List TournamentPlayerRow
  matchRows : List MatchRow
  decks : List DeckRow
  stores : List StoreRow
  casualHistory : List CasualPointsRow
  deriving DecidableEq

/-- The authenticated caller (`current_user`). -/
structure Caller where
  isAdmin : Bool
  isScorekeeper : Bool
  userId : String
  deriving DecidableEq

/-- The caller's session: `session["edit_{tid}"]` and `session["tok_{tid}"]`
entries, as association lists keyed by tournament id (later writes shadow
earlier entries). -/
structure Sess where
  editTokens : List (Nat × String)
  confirmTokens : List (Nat × String)
  deriving DecidableEq

/-- `session.get(key)`. -/
def sessGet (l : List (Nat × String)) (k : Nat) : Option String :=
  (l.find? (fun kv => kv.1 == k)).map (fun kv => kv.2)

/-- `session[key] = v`. -/
def sessSet (l : List (Nat × String)) (k : Nat) (v : String) : List (Nat × String) :=
  (k, v) :: l

/-- `Player.query.get(pid)`. -/
def getPlayer (db : DB) (pid : Nat) : Option PlayerRow :=
  db.players.find? (fun p => p.id == pid)

/-- Assignment to `player.elo` for the player with id `pid`. -/
def setPlayerElo (db : DB) (pid : Nat) (v : Int) : DB :=
  { db with players := db.players.map (fun p => if p.id == pid then { p with elo := v } else p) }

/-- `Tournament.query.get(tid)`. -/
def getTournament (db : DB) (tid : Nat) : Option TournamentRow :=
  db.tournaments.find? (fun t => t.id == tid)

/-- Field assignment on the tournament with id `tid`. -/
def updTournament (db : DB) (tid : Nat) (f : TournamentRow → TournamentRow) : DB :=
  { db with tournaments := db.tournaments.map (fun t => if t.id == tid then f t else t) }

/-- Field assignment on the store with id `sid`. -/
def updStore (db : DB) (sid : Nat) (f : StoreRow → StoreRow) : DB :=
  { db with stores := db.stores.map (fun s => if s.id == sid then f s else s) }

/-- `Match.query.filter_by(tournament_id=tid).all()` — no `order_by`: rows
come back in stored order. -/
def matchesOf (db : DB) (tid : Nat) : List MatchRow :=
  db.matchRows.filter (fun m => m.tournamentId == tid)

/-- `Player.query.join(TournamentPlayer, ...).filter(tournament_id == tid).all()`:
one player row per membership edge, in edge order (an inner join drops edges
whose player row is missing). -/
def playersOf (db : DB) (tid : Nat) : List PlayerRow :=
  (db.tournamentPlayers.filter (fun tp => tp.tournamentId == tid)).filterMap
    (fun tp => getPlayer db tp.playerId)

/-- `tournaments_played(player_id)` (src/app.py lines 384-391): the number of
`TournamentPlayer` edges of the player whose tournament is finalized
(`pending == False`). -/
def tournaments_played (db : DB) (pid : Nat) : Nat :=
  (db.tournamentPlayers.filter (fun tp =>
    tp.playerId == pid &&
      (match db.tournaments.find? (fun t => t.id == tp.tournamentId) with
       | some t => !t.pending
       | none => false))).length

/-- `result_to_scores` (src/app.py lines 346-358). -/
def result_to_scores (result : String) : Option (Int × Int) :=
  if result == "2-0" then some (2, 0)
  else if result == "0-2" then some (0, 2)
  else if result == "1-1" then some (1, 1)
  else if result == "bye" then some (2, 0)
  else if result == "2-1" then some (2, 1)
  else if result == "1-2" then some (1, 2)
  else if result == "1-0" then some (1, 0)
  else if result == "0-1" then some (0, 1)
  else none

/-- `update_elo(player_a, player_b, score_a, score_b, tournament)`
(src/app.py lines 449-492).  Mutation of `player_a.elo` / `player_b.elo`
becomes two successive writes to the state; when both ids name the same
player the second write sees the first (same object in the source). -/
def update_elo (db : DB) (aId bId : Nat) (scoreA scoreB : Int) (t : TournamentRow) : DB :=
  match getPlayer db aId, getPlayer db bId with
  | some pa, some pb =>
      let resultA : Frac :=
        if scoreA > scoreB then Frac.ofInt 1
        else if scoreA < scoreB then Frac.ofInt 0
        else ⟨1, 2⟩
      let resultB : Frac :=
        if scoreA > scoreB then Frac.ofInt 0
        else if scoreA < scoreB then Frac.ofInt 1
        else ⟨1, 2⟩
      let expectedA : Frac :=
        (Frac.ofInt 1).div ((Frac.ofInt 1).add
          (tenPow ((Frac.ofInt (pb.elo - pa.elo)).div ELO_DIVISOR)))
      let expectedB : Frac := (Frac.ofInt 1).sub expectedA
      let k : Int := if t.premium then 48 else if t.casual then 16 else 32
      let playedA := tournaments_played db aId
      let playedB := tournaments_played db bId
      let kA : Int := if playedA < 3 then k * 3 else k
      let kB : Int := if playedB < 3 then k * 3 else k
      let db1 := setPlayerElo db aId
        (pa.elo + pyRound ((Frac.ofInt kA).mul (resultA.sub expectedA)))
      let pb1 := (getPlayer db1 bId).getD pb
      setPlayerElo db1 bId
        (pb1.elo + pyRound ((Frac.ofInt kB).mul (resultB.sub expectedB)))
  | _, _ => db

/-- The expected score `E_a` the source computes for ratings `ra` against
`rb` (named so C4 can state `E_a = 0.5`). -/
def expected_score (ra rb : Int) : Frac :=
  (Frac.ofInt 1).div ((Frac.ofInt 1).add
    (tenPow ((Frac.ofInt (rb - ra)).div ELO_DIVISOR)))

/-- `default_top_cut(num_players)` (src/app.py lines 360-382). -/
def default_top_cut (numPlayers : Nat) : Nat :=
  let cut : Nat :=
    if 9 ≤ numPlayers ∧ numPlayers ≤ 16 then 4
    else if 17 ≤ numPlayers ∧ numPlayers ≤ 32 then 8
    else if 33 ≤ numPlayers ∧ numPlayers ≤ 64 then 8
    else if 65 ≤ numPlayers ∧ numPlayers ≤ 128 then 8
    else if 129 ≤ numPlayers ∧ numPlayers ≤ 216 then 8
    else if 217 ≤ numPlayers ∧ numPlayers ≤ 256 then 16
    else if 257 ≤ numPlayers ∧ numPlayers ≤ 512 then 16
    else if 513 ≤ numPlayers ∧ numPlayers ≤ 1024 then 32
    else if 1025 ≤ numPlayers ∧ numPlayers ≤ 2048 then 32
    else 0
  min cut numPlayers

/-- Stable insertion sort by a boolean "may stay before" relation: models a
stable ordered query / Python's stable `sort`. -/
def insSortedInsert (le : a0 → a0 → Bool) (x : a0) : List a0 → List a0
  | [] => [x]
  | h :: t => if le h x then h :: insSortedInsert le x t else x :: h :: t

def insSort (le : a0 → a0 → Bool) (l : List a0) : List a0 :=
  l.foldl (fun acc x => insSortedInsert le x acc) []

/-- Outcome of the finalize endpoint `apply_top_cut` (src/app.py lines
4865-4946): which redirect/flash path the handler took.  `ok warned` is the
success path; `warned` records the "Top Cut larger than players" flash. -/
inductive FinalizeOutcome
  | notFound
  | forbidden
  | alreadyDone
  | ok (warned : Bool)
  deriving DecidableEq

/-- One iteration of the finalize Elo loop in `apply_top_cut` (src/app.py
lines 4909-4921). -/
def finalizeMatchStep (t : TournamentRow) (db : DB) (m : MatchRow) : DB :=
  if m.result == "bye" && m.player1Id.isSome && m.player2Id.isNone then db
  else
    match m.player1Id, m.player2Id with
    | some a, some b =>
        match getPlayer db a, getPlayer db b with
        | some _, some _ =>
            let s := (result_to_scores m.result).getD (1, 1)
            update_elo db a b s.1 s.2 t
        | _, _ => db
    | _, _ => db

/-- The store-token consumption block of `apply_top_cut` (src/app.py lines
4923-4931); at this point in the handler `tournament.pending` is still true,
so its conjunct is vacuous. -/
def consumeStoreToken (db : DB) (t : TournamentRow) : DB :=
  match t.storeId with
  | some sid =>
      match db.stores.find? (fun s => s.id == sid) with
      | some s =>
          if t.premium && s.premiumTokens > 0 then
            updStore db sid (fun u => { u with premiumTokens := u.premiumTokens - 1 })
          else if !t.premium && !t.casual && s.competitiveTokens > 0 then
            updStore db sid (fun u => { u with competitiveTokens := u.competitiveTokens - 1 })
          else db
      | none => db
  | none => db

/-- `apply_top_cut(tid)` (src/app.py lines 4865-4946).  `topCutInput` is the
parsed form field (`None` for an absent, empty or non-numeric value, since
the handler maps a `ValueError` to `None`).  Note the handler checks the
caller's role and that the tournament is still pending, but never compares
any token. -/
def apply_top_cut (db : DB) (user : Caller) (tid : Nat) (topCutInput : Option Int) :
    FinalizeOutcome × DB :=
  match getTournament db tid with
  | none => (.notFound, db)
  | some t =>
    if !(user.isAdmin || user.isScorekeeper) then (.forbidden, db)
    else if !t.pending then (.alreadyDone, db)
    else
      let players := playersOf db tid
      let ms := matchesOf db tid
      let numPlayers := players.length
      let cutChoice : Int × Bool :=
        match topCutInput with
        | none => ((default_top_cut numPlayers : Int), false)
        | some c =>
            if c > (numPlayers : Int) then ((default_top_cut numPlayers : Int), true)
            else (c, false)
      let db1 := updTournament db tid (fun u => { u with topCut := some cutChoice.1 })
      let db2 := ms.foldl (finalizeMatchStep t) db1
      let db3 := consumeStoreToken db2 t
      let db4 := updTournament db3 tid (fun u => { u with pending := false, confirmToken := none })
      (.ok cutChoice.2, db4)

/-- Outcome of `discard_tournament` (src/app.py lines 4836-4860). -/
inductive DiscardOutcome
  | notFound
  | forbidden
  | deleted
  | ignored
  deriving DecidableEq

/-- `discard_tournament(tid)` (src/app.py lines 4836-4860): deletes the
tournament and its dependent rows only when it is an imported, still-pending
tournament; otherwise answers 204 without touching anything. -/
def discard_tournament (db : DB) (user : Caller) (tid : Nat) : DiscardOutcome × DB :=
  match getTournament db tid with
  | none => (.notFound, db)
  | some t =>
    if !(user.isAdmin || user.isScorekeeper) then (.forbidden, db)
    else if t.importedFromText && t.pending then
      (.deleted,
        { db with
          tournamentPlayers := db.tournamentPlayers.filter (fun tp => !(tp.tournamentId == tid)),
          matchRows := db.matchRows.filter (fun m => !(m.tournamentId == tid)),
          decks := db.decks.filter (fun d => !(d.tournamentId == some tid)),
          tournaments := db.tournaments.filter (fun u => !(u.id == tid)) })
    else (.ignored, db)

/-- Outcome of `edit_tournament` (src/app.py lines 5377-5428). -/
inductive EditOutcome
  | notFound
  | forbidden
  | stillPending
  | okCasualEdit
  | okRoundEdit
  deriving DecidableEq

/-- `edit_tournament(tid)` (src/app.py lines 5377-5428): entering edit mode.
`fresh` stands for the value `secrets.token_urlsafe(16)` returned this
request.  A pending tournament is rejected before any token is minted; on
success the fresh token is stored on the tournament row and in the caller's
session, and a manual (non-imported) non-casual tournament is additionally
marked casual. -/
def edit_tournament (db : DB) (user : Caller) (sess : Sess) (tid : Nat) (fresh : String) :
    EditOutcome × DB × Sess :=
  match getTournament db tid with
  | none => (.notFound, db, sess)
  | some t =>
    let canEdit := user.isAdmin || t.userId == some user.userId
    if !canEdit then (.forbidden, db, sess)
    else if t.pending then (.stillPending, db, sess)
    else
      let db1 := updTournament db tid (fun u => { u with editToken := some fresh })
      let sess1 := { sess with editTokens := sessSet sess.editTokens tid fresh }
      if !t.importedFromText then
        let db2 :=
          if !t.casual then updTournament db1 tid (fun u => { u with casual := true })
          else db1
        (.okCasualEdit, db2, sess1)
      else (.okRoundEdit, db1, sess1)

/-- Outcome of `update_match_results` (src/app.py lines 5431-5476). -/
inductive UpdateOutcome
  | notFound
  | permissionDenied
  | notInEditMode
  | invalidSession
  | ok
  deriving DecidableEq

/-- One iteration of the edit loop of `update_match_results` (src/app.py
lines 5458-5472): fetch the match by id, skip it unless it belongs to this
tournament, and replace its result according to the selected winner. -/
def applyChange (tid : Nat) (acc : DB) (ch : Nat × Int) : DB :=
  match acc.matchRows.find? (fun m => m.id == ch.1) with
  | none => acc
  | some m =>
    if m.tournamentId != tid then acc
    else
      let newRes :=
        if ch.2 == 1 then "2-0"
        else if ch.2 == 2 then "0-2"
        else "1-1"
      { acc with matchRows := acc.matchRows.map (fun mr =>
          if mr.id == ch.1 then { mr with result := newRes } else mr) }

/-- `update_match_results(tid)` (src/app.py lines 5431-5476).  `changes` is
the parsed JSON mapping of match id to selected winner.  A missing role, a
tournament not in edit mode (falsy `edit_token`), or a session token absent
or different from the tournament's edit token is rejected before any match is
touched; otherwise each named match of this tournament has its result
replaced by "2-0", "0-2" or "1-1" according to the winner number. -/
def update_match_results (db : DB) (user : Caller) (sess : Sess) (tid : Nat)
    (changes : List (Nat × Int)) : UpdateOutcome × DB :=
  match getTournament db tid with
  | none => (.notFound, db)
  | some t =>
    let canEdit := user.isAdmin || t.userId == some user.userId
    if !canEdit then (.permissionDenied, db)
    else
      match t.editToken with
      | none => (.notInEditMode, db)
      | some tok =>
        if tok == "" then (.notInEditMode, db)
        else
          match sessGet sess.editTokens tid with
          | none => (.invalidSession, db)
          | some s =>
            if s == "" || s != tok then (.invalidSession, db)
            else (.ok, changes.foldl (applyChange tid) db)

/-- The `>= T`, finalized tournament list of the recalculation (src/app.py
lines 5589-5592), in ascending `submitted_at` order. -/
def laterTournaments (db : DB) (fromTs : Int) : List TournamentRow :=
  insSort (fun a b => a.submittedAt ≤ b.submittedAt)
    (db.tournaments.filter (fun t => fromTs ≤ t.submittedAt && !t.pending))

/-- The `< T`, finalized tournament list of the recalculation (src/app.py
lines 5604-5607), in ascending `submitted_at` order. -/
def earlierTournaments (db : DB) (fromTs : Int) : List TournamentRow :=
  insSort (fun a b => a.submittedAt ≤ b.submittedAt)
    (db.tournaments.filter (fun t => t.submittedAt < fromTs && !t.pending))

/-- The ids of players having a membership edge in some tournament with
`submitted_at >= T` (src/app.py lines 5598-5601); the Python set is modelled
as a list queried with `contains`. -/
def affectedPlayerIds (db : DB) (fromTs : Int) : List Nat :=
  (laterTournaments db fromTs).foldl (fun acc t =>
    acc ++ (db.tournamentPlayers.filter (fun tp => tp.tournamentId == t.id)).map
      (fun tp => tp.playerId)) []

/-- The reset step of the recalculation (src/app.py lines 5609-5614): every
affected player's rating is set back to `DEFAULT_ELO`. -/
def resetAffected (db : DB) (ids : List Nat) : DB :=
  { db with players := db.players.map (fun p =>
      if ids.contains p.id then { p with elo := DEFAULT_ELO } else p) }

/-- Replay of one tournament during recalculation (src/app.py lines
5617-5627 and 5630-5640): its matches in ascending round order, skipping any
bye or incomplete pairing, applying `update_elo` to the rest. -/
def replayTournament (db : DB) (t : TournamentRow) : DB :=
  let ms := insSort (fun a b => a.roundNum ≤ b.roundNum)
    (db.matchRows.filter (fun m => m.tournamentId == t.id))
  ms.foldl (fun acc m =>
    if m.result == "bye" || m.player1Id.isNone || m.player2Id.isNone then acc
    else
      match m.player1Id, m.player2Id with
      | some a, some b =>
          match getPlayer acc a, getPlayer acc b with
          | some _, some _ =>
              let s := (result_to_scores m.result).getD (1, 1)
              update_elo acc a b s.1 s.2 t
          | _, _ => acc
      | _, _ => acc) db

/-- `recalculate_elo_from_timestamp(from_timestamp)` (src/app.py lines
5586-5640): collect the finalized tournaments at or after `T` and their
players, reset those players to the default rating, then replay all earlier
finalized tournaments followed by the tournaments from `T` on. -/
def recalculate_elo_from_timestamp (db : DB) (fromTs : Int) : DB :=
  let later := laterTournaments db fromTs
  let affected := affectedPlayerIds db fromTs
  let earlier := earlierTournaments db fromTs
  let db1 := resetAffected db affected
  let db2 := earlier.foldl replayTournament db1
  later.foldl replayTournament db2

/-- Outcome of `finalize_tournament_edit` (src/app.py lines 5560-5583). -/
inductive FinalizeEditOutcome
  | notFound
  | forbidden
  | ok
  deriving DecidableEq

/-- `finalize_tournament_edit(tid)` (src/app.py lines 5560-5583): after a
role/ownership check only (no token is compared and edit mode is not
verified), clears the edit token and runs the recalculation from this
tournament's submission timestamp. -/
def finalize_tournament_edit (db : DB) (user : Caller) (tid : Nat) :
    FinalizeEditOutcome × DB :=
  match getTournament db tid with
  | none => (.notFound, db)
  | some t =>
    if !(user.isAdmin || t.userId == some user.userId) then (.forbidden, db)
    else
      let db1 := updTournament db tid (fun u => { u with editToken := none })
      (.ok, recalculate_elo_from_timestamp db1 t.submittedAt)

/-- One row of the standings view (fields the core computes; display-only
lookups such as decks and submitter are read-only and omitted). -/
structure StandingRow where
  playerId : Nat
  wins : Nat
  draws : Nat
  losses : Nat
  points : Int
  eloDelta : Int
  deriving DecidableEq

/-- Lookup in the `elo_changes` dict. -/
def dictGet (l : List (Nat × Int)) (k : Nat) : Option Int :=
  (l.find? (fun kv => kv.1 == k)).map (fun kv => kv.2)

/-- Update of an existing key in the `elo_changes` dict. -/
def dictSet (l : List (Nat × Int)) (k : Nat) (v : Int) : List (Nat × Int) :=
  l.map (fun kv => if kv.1 == k then (k, v) else kv)

/-- `elo_changes = ... p.id: 0 for p in players ...` (a dict keyed by the
tournament's player ids; duplicate ids give duplicate entries that `dictGet`
and `dictSet` treat exactly like the single dict entry, since lookups take
the first hit and updates rewrite every hit). -/
def dictInit (ids : List Nat) : List (Nat × Int) :=
  ids.map (fun i => (i, 0))

/-- The Elo-preview loop of `tournament_standings` (src/app.py lines
5291-5302): for each match with a second player, mutate both ratings via the
Rating Engine, record the per-player net change, then put both ratings back.
A match whose player rows cannot be fetched raises (`p1.elo` on `None`), and
a match naming a player outside the `players` set raises a `KeyError` on the
`elo_changes` dict; either exception aborts the request, so nothing is
committed. -/
def previewStep (t : TournamentRow) (m : MatchRow) (db : DB)
    (changes : List (Nat × Int)) : Except String (DB × List (Nat × Int)) :=
  if m.player2Id.isNone then .ok (db, changes)
  else
    match m.player1Id.bind (getPlayer db), m.player2Id.bind (getPlayer db) with
    | some p1, some p2 =>
        let s := (result_to_scores m.result).getD (1, 1)
        let old1 := p1.elo
        let old2 := p2.elo
        let dbU := update_elo db p1.id p2.id s.1 s.2 t
        let new1 := ((getPlayer dbU p1.id).getD p1).elo
        let new2 := ((getPlayer dbU p2.id).getD p2).elo
        match dictGet changes p1.id with
        | none => .error "KeyError"
        | some c1 =>
          let ch1 := dictSet changes p1.id (c1 + (new1 - old1))
          match dictGet ch1 p2.id with
          | none => .error "KeyError"
          | some c2 =>
            let ch2 := dictSet ch1 p2.id (c2 + (new2 - old2))
            let dbR := setPlayerElo (setPlayerElo dbU p1.id old1) p2.id old2
            .ok (dbR, ch2)
    | _, _ => .error "AttributeError"

def previewLoop (t : TournamentRow) (db : DB) (changes : List (Nat × Int)) :
    List MatchRow → Except String (DB × List (Nat × Int))
  | [] => .ok (db, changes)
  | m :: ms =>
    match previewStep t m db changes with
    | .error e => .error e
    | .ok (db2, ch2) => previewLoop t db2 ch2 ms

/-- Record accumulated by the per-player points loop. -/
structure StatAcc where
  wins : Nat
  draws : Nat
  losses : Nat
  points : Int
  deriving DecidableEq

/-- One iteration of the per-player points loop of `tournament_standings`
(src/app.py lines 5307-5318).  Note the final `else`: a match that involves
the player but has an unrecognized outcome counts as a loss. -/
def statsStep (p : PlayerRow) (s : StatAcc) (m : MatchRow) : StatAcc :=
  if m.player1Id == some p.id || m.player2Id == some p.id then
    if m.result == "bye" && m.player1Id == some p.id then
      { s with wins := s.wins + 1, points := s.points + 3 }
    else if (m.result == "2-0" || m.result == "2-1" || m.result == "1-0")
        && m.player1Id == some p.id then
      { s with wins := s.wins + 1, points := s.points + 3 }
    else if (m.result == "0-2" || m.result == "1-2" || m.result == "0-1")
        && m.player2Id == some p.id then
      { s with wins := s.wins + 1, points := s.points + 3 }
    else if m.result == "1-1" then
      { s with draws := s.draws + 1, points := s.points + 1 }
    else
      { s with losses := s.losses + 1 }
  else s

/-- The stats of one player over the tournament's matches. -/
def playerStats (p : PlayerRow) (ms : List MatchRow) : StatAcc :=
  ms.foldl (statsStep p) ⟨0, 0, 0, 0⟩

/-- The standings row built for one player (src/app.py lines 5304-5338).  For
a casual tournament the displayed points come from `CasualPointsHistory`. -/
def standingRowFor (db : DB) (t : TournamentRow) (tid : Nat) (ms : List MatchRow)
    (changes : List (Nat × Int)) (p : PlayerRow) : StandingRow :=
  let st := playerStats p ms
  let casualPts : Int :=
    match db.casualHistory.find? (fun h => h.tournamentId == tid && h.playerId == p.id) with
    | some h => h.points
    | none => 0
  { playerId := p.id
    wins := st.wins
    draws := st.draws
    losses := st.losses
    points := if t.casual then casualPts else st.points
    eloDelta := (dictGet changes p.id).getD 0 }

/-- `standings.sort(key=..points, wins.., reverse=True)`: Python's stable
sort, descending lexicographically by (points, wins). -/
def sortStandings (rows : List StandingRow) : List StandingRow :=
  insSort (fun a b =>
    b.points < a.points || (b.points == a.points && b.wins ≤ a.wins)) rows

/-- `tournament_standings(tid)` (src/app.py lines 5284-5372): the standings
preview.  The handler never commits, so an `ok` result carries the session
state it ends with (equal to the input, the preview having rolled every
rating back), and an exception (`error`) leaves the persisted state untouched
by rollback. -/
def tournament_standings (db : DB) (tid : Nat) :
    Except String (List StandingRow × DB) :=
  match getTournament db tid with
  | none => .error "404"
  | some t =>
    let players := playersOf db tid
    let ms := matchesOf db tid
    match previewLoop t db (dictInit (players.map (fun p => p.id))) ms with
    | .error e => .error e
    | .ok (db1, changes) =>
        .ok (sortStandings (players.map (standingRowFor db1 t tid ms changes)), db1)

/-- `find?` is unchanged by mapping a function that preserves the tested
predicate. -/
theorem find?_map_pred {α : Type} {f : α → α} {p : α → Bool}
    (hp : ∀ x, p (f x) = p x) :
    ∀ l : List α, (l.map f).find? p = (l.find? p).map f
  | [] => rfl
  | x :: t => by
    by_cases h : p x = true
    · have hfx : p (f x) = true := by rw [hp x]; exact h
      rw [List.map_cons, List.find?_cons_of_pos _ hfx, List.find?_cons_of_pos _ h]
      rfl
    · have hfx : ¬ p (f x) = true := by rw [hp x]; exact h
      rw [List.map_cons, List.find?_cons_of_neg _ hfx, List.find?_cons_of_neg _ h,
        find?_map_pred hp t]

theorem getPlayer_setPlayerElo (db : DB) (i : Nat) (v : Int) (j : Nat) :
    getPlayer (setPlayerElo db i v) j =
      (getPlayer db j).map (fun p => if p.id == i then { p with elo := v } else p) := by
  unfold getPlayer setPlayerElo
  exact find?_map_pred (fun x => by by_cases h : x.id == i <;> simp [h]) db.players

theorem getTournament_updTournament (db : DB) (tid : Nat) (f : TournamentRow → TournamentRow)
    (hf : ∀ u, (f u).id = u.id) (j : Nat) :
    getTournament (updTournament db tid f) j =
      (getTournament db j).map (fun t => if t.id == tid then f t else t) := by
  unfold getTournament updTournament
  exact find?_map_pred (fun x => by by_cases h : x.id == tid <;> simp [h, hf]) db.tournaments

/-- In a table with no duplicate ids, the row `find?` returns is the only row
bearing its id. -/
theorem eq_of_mem_of_find?_nodup {α : Type} (key : α → Nat) {l : List α} {k : Nat} {a : α}
    (hnd : (l.map key).Nodup) (hfind : l.find? (fun x => key x == k) = some a) :
    ∀ b ∈ l, key b = k → b = a := by
  intro b hb hbk
  have ha : a ∈ l := List.mem_of_find?_eq_some hfind
  have hak := List.find?_some hfind
  have hak' : key a = k := by simpa using hak
  exact List.inj_on_of_nodup_map hnd hb ha (by rw [hbk, hak'])

/-- Rolling one element of the player table through write / write /
restore / restore leaves it unchanged, provided the recorded old ratings
belong to the unique rows with these ids. -/
theorem restore_one (a b : Nat) (pa pb q : PlayerRow)
    (hua : q.id = a → q = pa) (hub : q.id = b → q = pb) (v1 v2 : Int) :
    (fun p => if p.id == b then { p with elo := pb.elo } else p)
      ((fun p => if p.id == a then { p with elo := pa.elo } else p)
        ((fun p => if p.id == b then { p with elo := v2 } else p)
          ((fun p => if p.id == a then { p with elo := v1 } else p) q))) = q := by
  by_cases hqa : q.id = a
  · by_cases hqb : q.id = b
    · have ea : (q.id == a) = true := by simpa using hqa
      have eb : (q.id == b) = true := by simpa using hqb
      have h := hub hqb
      simp only [ea, eb, if_true]
      rw [h]
    · have ea : (q.id == a) = true := by simpa using hqa
      have eb : (q.id == b) = false := by simpa using hqb
      have h := hua hqa
      simp only [ea, eb, if_true, Bool.false_eq_true, if_false]
      rw [h]
  · by_cases hqb : q.id = b
    · have ea : (q.id == a) = false := by simpa using hqa
      have eb : (q.id == b) = true := by simpa using hqb
      have h := hub hqb
      simp only [ea, eb, if_true, Bool.false_eq_true, if_false]
      rw [h]
    · have ea : (q.id == a) = false := by simpa using hqa
      have eb : (q.id == b) = false := by simpa using hqb
      simp only [ea, eb, Bool.false_eq_true, if_false]

theorem restore_map (a b : Nat) (pa pb : PlayerRow) (v1 v2 : Int) :
    ∀ players : List PlayerRow,
      (∀ q ∈ players, q.id = a → q = pa) → (∀ q ∈ players, q.id = b → q = pb) →
      ((((players.map (fun p => if p.id == a then { p with elo := v1 } else p)).map
          (fun p => if p.id == b then { p with elo := v2 } else p)).map
          (fun p => if p.id == a then { p with elo := pa.elo } else p)).map
          (fun p => if p.id == b then { p with elo := pb.elo } else p)) = players := by
  intro players hua hub
  rw [List.map_map, List.map_map, List.map_map]
  conv_rhs => rw [← List.map_id players]
  refine List.map_congr_left ?_
  intro q hq
  simpa using restore_one a b pa pb q (hua q hq) (hub q hq) v1 v2

theorem setPlayerElo_tournaments (db : DB) (i : Nat) (v : Int) :
    (setPlayerElo db i v).tournaments = db.tournaments := rfl

theorem setPlayerElo_matchRows (db : DB) (i : Nat) (v : Int) :
    (setPlayerElo db i v).matchRows = db.matchRows := rfl

/-- Putting back the previously read ratings of `a` and `b` exactly undoes
any pair of rating writes to them (this is the rollback of the preview). -/
theorem setPlayerElo_restore (db : DB) (a b : Nat) (pa pb : PlayerRow) (v1 v2 : Int)
    (hnd : (db.players.map PlayerRow.id).Nodup)
    (h1 : getPlayer db a = some pa) (h2 : getPlayer db b = some pb) :
    setPlayerElo (setPlayerElo (setPlayerElo (setPlayerElo db a v1) b v2) a pa.elo) b pb.elo
      = db := by
  have hua : ∀ q ∈ db.players, q.id = a → q = pa :=
    eq_of_mem_of_find?_nodup PlayerRow.id hnd h1
  have hub : ∀ q ∈ db.players, q.id = b → q = pb :=
    eq_of_mem_of_find?_nodup PlayerRow.id hnd h2
  ext1
  · exact restore_map a b pa pb v1 v2 db.players hua hub
  all_goals rfl

theorem update_elo_tournaments (db : DB) (a b : Nat) (sA sB : Int) (t : TournamentRow) :
    (update_elo db a b sA sB t).tournaments = db.tournaments := by
  unfold update_elo
  cases getPlayer db a <;> cases getPlayer db b <;> rfl

theorem update_elo_matchRows (db : DB) (a b : Nat) (sA sB : Int) (t : TournamentRow) :
    (update_elo db a b sA sB t).matchRows = db.matchRows := by
  unfold update_elo
  cases getPlayer db a <;> cases getPlayer db b <;> rfl

/-- When both lookups succeed, `update_elo` is a pair of rating writes. -/
theorem update_elo_eq_set_set (db : DB) (a b : Nat) (sA sB : Int) (t : TournamentRow)
    (pa pb : PlayerRow) (h1 : getPlayer db a = some pa) (h2 : getPlayer db b = some pb) :
    ∃ v1 v2, update_elo db a b sA sB t = setPlayerElo (setPlayerElo db a v1) b v2 := by
  unfold update_elo
  rw [h1, h2]
  exact ⟨_, _, rfl⟩

/-- The concrete database state breaking the recalculation claims: two
finalized imported tournaments, tournament 1 (submitted at time 0) pairing
players 1 and 2, tournament 2 (submitted at time 10) pairing players 3 and 4,
each with one decisive 2-0 match, all ratings 1000 (all rating differences
stay multiples of 400, so the model reproduces the source's float arithmetic
exactly on this state). -/
def recalcState : DB :=
  { players := [⟨1, 1000⟩, ⟨2, 1000⟩, ⟨3, 1000⟩, ⟨4, 1000⟩]
    tournaments :=
      [⟨1, false, false, false, true, none, none, none, none, none, 0⟩,
       ⟨2, false, false, false, true, none, none, none, none, none, 10⟩]
    tournamentPlayers := [⟨1, 1⟩, ⟨1, 2⟩, ⟨2, 3⟩, ⟨2, 4⟩]
    matchRows :=
      [⟨1, 1, 1, some 1, some 2, "2-0"⟩,
       ⟨2, 2, 1, some 3, some 4, "2-0"⟩]
    decks := []
    stores := []
    casualHistory := [] }

/-- C1: the claim states that the recalculation's pre-T replay phase changes
only the ratings of players reset in step 3 (participants of tournaments with
timestamp at or after T) and replays only earlier tournaments involving those
players, so that afterwards every rating is as if the edit had preceded the
later tournaments.  The code violates this: `recalculate_elo_from_timestamp`
replays every finalized tournament earlier than T without any
involves-an-affected-player filter and calls `update_elo` on the
participants of those tournaments even though they were never reset, so
their already-applied results are applied a second time.  On `recalcState`,
player 1 participates only in tournament 1 (earlier than T = 10, disjoint
from the affected set, which is exactly the players 3 and 4 of tournament
2); yet the pre-T phase, and hence the whole recalculation, moves player 1
from 1000 to 1048. -/
theorem recalc_pre_T_phase_mutates_unreset_players :
    (1 : Nat) ∉ affectedPlayerIds recalcState 10 ∧
    affectedPlayerIds recalcState 10 = [3, 4] ∧
    ((recalcState.tournamentPlayers.filter (fun tp => tp.tournamentId == 1)).map
      (fun tp => tp.playerId)) = [1, 2] ∧
    (earlierTournaments recalcState 10).map (fun t => t.id) = [1] ∧
    (getPlayer recalcState 1).map (fun p => p.elo) = some 1000 ∧
    (getPlayer ((earlierTournaments recalcState 10).foldl replayTournament
        (resetAffected recalcState (affectedPlayerIds recalcState 10))) 1).map
      (fun p => p.elo) = some 1048 ∧
    (getPlayer (recalculate_elo_from_timestamp recalcState 10) 1).map
      (fun p => p.elo) = some 1048 := by
  decide

/-- C2: the claim states that running the Recalculation Orchestrator twice
in a row from the same timestamp leaves every player's rating the same after
the second run as after the first.  The code violates this: the first run
moves player 1 (who is in no tournament at or after T, hence is never reset)
from 1000 to 1048, and the state after the first run still replays
tournament 1's decisive match over player 1 in any further run, now from the
drifted rating 1048 against 952, so the second run moves player 1 again.  In
the model the drifted difference 96 is floored to the exponent -1 and the
second run lands on 1057; under the source's float arithmetic the same match
yields round(96 * 0.3653) = 35, landing on 1083 — under either semantics
player 1's rating after the second run differs from 1048, refuting the
claim. -/
theorem recalc_second_run_moves_player_again :
    (getPlayer (recalculate_elo_from_timestamp recalcState 10) 1).map
      (fun p => p.elo) = some 1048 ∧
    (getPlayer (recalculate_elo_from_timestamp
        (recalculate_elo_from_timestamp recalcState 10) 10) 1).map (fun p => p.elo) ≠
      (getPlayer (recalculate_elo_from_timestamp recalcState 10) 1).map (fun p => p.elo) ∧
    (1 : Nat) ∉ affectedPlayerIds (recalculate_elo_from_timestamp recalcState 10) 10 ∧
    (earlierTournaments (recalculate_elo_from_timestamp recalcState 10) 10).map
      (fun t => t.id) = [1] := by
  decide

/-- State for the C3 counterexample: tournament 1 is a pending import whose
active confirm token is "secret"; tournament 2 is finalized and carries the
active edit token "stale".  No caller below ever presents either token. -/
def tokenlessState : DB :=
  { players := []
    tournaments :=
      [⟨1, true, false, false, true, none, some "secret", none, none, none, 0⟩,
       ⟨2, false, false, false, true, none, none, some "stale", none, none, 5⟩]
    tournamentPlayers := []
    matchRows := []
    decks := []
    stores := []
    casualHistory := [] }

/-- The admin caller used in concrete lifecycle states. -/
def adminUser : Caller := ⟨true, false, "admin"⟩

/-- C3 (counterexample): the claim says every mutating operation — including
finalizing a pending import and finalizing an edit session — succeeds only
if the caller presents a token equal to the tournament's currently active
token, a missing token being rejected with no state change.  But
`apply_top_cut` and `finalize_tournament_edit` never read any token (their
embeddings accordingly take no token or session argument): with no token
presented, finalization of pending tournament 1 (active confirm token
"secret") succeeds and commits `pending := false`, and finalizing the edit
of tournament 2 (active edit token "stale" never presented) succeeds and
clears the token — both state changes despite the missing token. -/
theorem finalize_endpoints_ignore_tokens_cex :
    (getTournament tokenlessState 1).map (fun t => (t.pending, t.confirmToken)) =
      some (true, some "secret") ∧
    (apply_top_cut tokenlessState adminUser 1 none).1 = FinalizeOutcome.ok false ∧
    (getTournament (apply_top_cut tokenlessState adminUser 1 none).2 1).map
      (fun t => t.pending) = some false ∧
    (getTournament tokenlessState 2).map (fun t => t.editToken) = some (some "stale") ∧
    (finalize_tournament_edit tokenlessState adminUser 2).1 = FinalizeEditOutcome.ok ∧
    (getTournament (finalize_tournament_edit tokenlessState adminUser 2).2 2).map
      (fun t => t.editToken) = some none := by
  decide

/-- C3 (amended): only `update_match_results` enforces the token protocol —
with no active edit token, or a session token absent, empty, or different
from the active one, it rejects and leaves the state unchanged (this also
covers a caller lacking the role). `apply_top_cut` succeeds for any caller
with the organizer role on any still-pending tournament without comparing a
token, and `finalize_tournament_edit` succeeds on a role/ownership check
alone. -/
theorem token_enforcement_amended :
    (∀ db user sess tid changes t, getTournament db tid = some t →
      (t.editToken = none ∨ t.editToken = some "" ∨ sessGet sess.editTokens tid = none ∨
        (∃ s0, sessGet sess.editTokens tid = some s0 ∧ (s0 = "" ∨ some s0 ≠ t.editToken))) →
      (update_match_results db user sess tid changes).1 ≠ UpdateOutcome.ok ∧
      (update_match_results db user sess tid changes).2 = db) ∧
    (∀ db user tid cut t, getTournament db tid = some t →
      (user.isAdmin || user.isScorekeeper) = true → t.pending = true →
      ∃ w, (apply_top_cut db user tid cut).1 = FinalizeOutcome.ok w) ∧
    (∀ db user tid t, getTournament db tid = some t →
      (user.isAdmin || t.userId == some user.userId) = true →
      (finalize_tournament_edit db user tid).1 = FinalizeEditOutcome.ok) := by
  refine ⟨?_, ?_, ?_⟩
  · intro db user sess tid changes t hfind hrej
    unfold update_match_results
    rw [hfind]
    by_cases hce : (user.isAdmin || t.userId == some user.userId) = true
    · simp only [hce, Bool.not_true, Bool.false_eq_true, if_false]
      rcases hrej with h | h | h | ⟨s0, hs0, hbad⟩
      · rw [h]
        exact And.intro (by simp) (by simp)
      · rw [h]
        simp
      · rcases het : t.editToken with _ | tok
        · exact And.intro (by simp) (by simp)
        · by_cases htk : tok == ""
          · simp only [htk, if_true]
            exact And.intro (by simp) (by simp)
          · simp only [htk, Bool.false_eq_true, if_false, h]
            exact And.intro (by simp) (by simp)
      · rcases het : t.editToken with _ | tok
        · exact And.intro (by simp) (by simp)
        · by_cases htk : tok == ""
          · simp only [htk, if_true]
            exact And.intro (by simp) (by simp)
          · simp only [htk, Bool.false_eq_true, if_false, hs0]
            have hne : (s0 == "" || s0 != tok) = true := by
              rcases hbad with hb | hb
              · simp [hb]
              · have : s0 ≠ tok := by
                  intro hh
                  exact hb (by rw [hh, het])
                simp [this]
            simp only [hne, if_true]
            exact And.intro (by simp) (by simp)
    · have hce' : (user.isAdmin || t.userId == some user.userId) = false := by
        simpa using hce
      simp only [hce', Bool.not_false, if_true]
      exact And.intro (by simp) (by simp)
  · intro db user tid cut t hfind hrole hpending
    unfold apply_top_cut
    rw [hfind]
    simp only [hrole, hpending, Bool.not_true, Bool.false_eq_true, if_false]
    exact ⟨_, rfl⟩
  · intro db user tid t hfind hrole
    unfold finalize_tournament_edit
    rw [hfind]
    simp only [hrole, Bool.not_true, Bool.false_eq_true, if_false]

/-- Witness state: tournament 1 is finalized and in edit mode with active
edit token "tk" owned by "owner"; tournament 2 is a pending import. -/
def tokenWitnessState : DB :=
  { players := []
    tournaments :=
      [⟨1, false, false, false, true, none, none, some "tk", none, some "owner", 0⟩,
       ⟨2, true, false, false, true, none, some "c", none, none, none, 5⟩]
    tournamentPlayers := []
    matchRows := []
    decks := []
    stores := []
    casualHistory := [] }

/-- The non-admin owner of tournament 1. -/
def ownerUser : Caller := ⟨false, false, "owner"⟩

/-- Session holding the stale token "bad" for tournament 1. -/
def staleSess : Sess := ⟨[(1, "bad")], []⟩

/-- Witness for the amended C3 theorem at concrete inputs: the stale session
token "bad" (tournament 1's active edit token is "tk") is rejected without a
state change, while finalizing pending tournament 2 and finalizing the edit
of tournament 1 succeed with no token presented at all. -/
theorem token_enforcement_amended_witness :
    ((update_match_results tokenWitnessState ownerUser staleSess 1 [(7, 1)]).1 ≠
        UpdateOutcome.ok ∧
      (update_match_results tokenWitnessState ownerUser staleSess 1 [(7, 1)]).2 =
        tokenWitnessState) ∧
    (∃ w, (apply_top_cut tokenWitnessState adminUser 2 none).1 = FinalizeOutcome.ok w) ∧
    (finalize_tournament_edit tokenWitnessState ownerUser 1).1 = FinalizeEditOutcome.ok :=
  ⟨token_enforcement_amended.1 tokenWitnessState ownerUser staleSess 1 [(7, 1)]
      ⟨1, false, false, false, true, none, none, some "tk", none, some "owner", 0⟩
      (by decide)
      (Or.inr (Or.inr (Or.inr ⟨"bad", by decide, Or.inr (by decide)⟩))),
    token_enforcement_amended.2.1 tokenWitnessState adminUser 2 none
      ⟨2, true, false, false, true, none, some "c", none, none, none, 5⟩
      (by decide) (by decide) (by decide),
    token_enforcement_amended.2.2 tokenWitnessState ownerUser 1
      ⟨1, false, false, false, true, none, none, some "tk", none, some "owner", 0⟩
      (by decide) (by decide)⟩

/-- C4: for two players both rated 1000, in a tournament that is neither
premium nor casual (base k = 32), both having at least 3 prior finalized
tournaments (no provisional multiplier), a 2-0 win of A over B computes
expected score E_a = 0.5 and produces new ratings A = 1016 and B = 984,
exactly as `update_elo` is invoked by finalization with
`result_to_scores("2-0") = (2, 0)`. -/
theorem update_elo_equal_ratings_example
    (db : DB) (t : TournamentRow) (aId bId : Nat) (pa pb : PlayerRow)
    (hab : aId ≠ bId)
    (ha : getPlayer db aId = some pa) (hb : getPlayer db bId = some pb)
    (hpa : pa.elo = 1000) (hpb : pb.elo = 1000)
    (hprem : t.premium = false) (hcas : t.casual = false)
    (hplA : 3 ≤ tournaments_played db aId) (hplB : 3 ≤ tournaments_played db bId) :
    (expected_score pa.elo pb.elo).val = 1 / 2 ∧
    (getPlayer (update_elo db aId bId 2 0 t) aId).map (fun p => p.elo) = some 1016 ∧
    (getPlayer (update_elo db aId bId 2 0 t) bId).map (fun p => p.elo) = some 984 := by
  have hpaid : pa.id = aId := by
    unfold getPlayer at ha
    have := List.find?_some ha
    simpa using this
  have hpbid : pb.id = bId := by
    unfold getPlayer at hb
    have := List.find?_some hb
    simpa using this
  have hA3 : ¬ tournaments_played db aId < 3 := by omega
  have hB3 : ¬ tournaments_played db bId < 3 := by omega
  have hexp : (expected_score (1000 : Int) 1000).val = 1 / 2 := by
    have hfrac : expected_score (1000 : Int) 1000 = ⟨1, 2⟩ := by decide
    rw [hfrac]
    norm_num [Frac.val]
  refine ⟨by rw [hpa, hpb]; exact hexp, ?_, ?_⟩
  · have hcondA : (pa.id == aId) = true := by simp [hpaid]
    have hcondB : (pa.id == bId) = false := by
      simp only [hpaid]
      simpa using hab
    have hcondC : (pb.id == aId) = false := by
      simp only [hpbid]
      simpa using fun h => hab h.symm
    have hcondD : (pb.id == bId) = true := by simp [hpbid]
    unfold update_elo
    rw [ha, hb]
    dsimp only
    simp only [getPlayer_setPlayerElo, ha, hb, Option.map_some', Option.getD_some,
      hcondA, hcondB, hcondC, hcondD, if_true, Bool.false_eq_true, if_false,
      hpa, hpb, hprem, hcas, if_neg hA3, if_neg hB3]
    decide
  · have hcondA : (pa.id == aId) = true := by simp [hpaid]
    have hcondB : (pa.id == bId) = false := by
      simp only [hpaid]
      simpa using hab
    have hcondC : (pb.id == aId) = false := by
      simp only [hpbid]
      simpa using fun h => hab h.symm
    have hcondD : (pb.id == bId) = true := by simp [hpbid]
    unfold update_elo
    rw [ha, hb]
    dsimp only
    simp only [getPlayer_setPlayerElo, ha, hb, Option.map_some', Option.getD_some,
      hcondA, hcondB, hcondC, hcondD, if_true, Bool.false_eq_true, if_false,
      hpa, hpb, hprem, hcas, if_neg hA3, if_neg hB3]
    decide

/-- Witness state for C4: players 1 and 2 both rated 1000, each having
played the three prior finalized tournaments 1-3; tournament 4 is the live
one, neither premium nor casual. -/
def eloWitnessState : DB :=
  { players := [⟨1, 1000⟩, ⟨2, 1000⟩]
    tournaments :=
      [⟨1, false, false, false, true, none, none, none, none, none, 0⟩,
       ⟨2, false, false, false, true, none, none, none, none, none, 1⟩,
       ⟨3, false, false, false, true, none, none, none, none, none, 2⟩,
       ⟨4, true, false, false, true, none, some "tok", none, none, none, 3⟩]
    tournamentPlayers := [⟨1, 1⟩, ⟨1, 2⟩, ⟨2, 1⟩, ⟨2, 2⟩, ⟨3, 1⟩, ⟨3, 2⟩, ⟨4, 1⟩, ⟨4, 2⟩]
    matchRows := []
    decks := []
    stores := []
    casualHistory := [] }

/-- The live tournament of `eloWitnessState`. -/
def eloWitnessTournament : TournamentRow :=
  ⟨4, true, false, false, true, none, some "tok", none, none, none, 3⟩

/-- Witness for C4 at a concrete state: with three prior finalized
tournaments per player, the 2-0 update moves 1000/1000 to 1016/984 with
expected score one half. -/
theorem update_elo_equal_ratings_example_witness :
    3 ≤ tournaments_played eloWitnessState 1 ∧
    (expected_score 1000 1000).val = 1 / 2 ∧
    (getPlayer (update_elo eloWitnessState 1 2 2 0 eloWitnessTournament) 1).map
      (fun p => p.elo) = some 1016 ∧
    (getPlayer (update_elo eloWitnessState 1 2 2 0 eloWitnessTournament) 2).map
      (fun p => p.elo) = some 984 := by
  have h := update_elo_equal_ratings_example eloWitnessState eloWitnessTournament 1 2
    ⟨1, 1000⟩ ⟨2, 1000⟩ (by decide) (by decide) (by decide) rfl rfl rfl rfl
    (by decide) (by decide)
  exact ⟨by decide, h.1, h.2.1, h.2.2⟩

/-- One preview step restores every rating it touches: on success it hands
back the state it started from (requires the primary-key invariant that
player ids are unique). -/
theorem previewStep_frame (t : TournamentRow) (m : MatchRow) (db : DB)
    (ch ch2 : List (Nat × Int)) (db2 : DB)
    (hnd : (db.players.map PlayerRow.id).Nodup)
    (h : previewStep t m db ch = Except.ok (db2, ch2)) : db2 = db := by
  unfold previewStep at h
  by_cases h2 : m.player2Id.isNone
  · rw [if_pos h2] at h
    cases h
    rfl
  · rw [if_neg h2] at h
    rcases hp1 : m.player1Id.bind (getPlayer db) with _ | p1 <;>
      rcases hp2 : m.player2Id.bind (getPlayer db) with _ | p2 <;>
      rw [hp1, hp2] at h <;> dsimp only at h
    · cases h
    · cases h
    · cases h
    split at h
    · cases h
    split at h
    · cases h
    obtain ⟨pid1, hpid1, hga⟩ := Option.bind_eq_some.mp hp1
    obtain ⟨pid2, hpid2, hgb⟩ := Option.bind_eq_some.mp hp2
    have hid1 : p1.id = pid1 := by
      unfold getPlayer at hga
      simpa using List.find?_some hga
    have hid2 : p2.id = pid2 := by
      unfold getPlayer at hgb
      simpa using List.find?_some hgb
    have hga' : getPlayer db p1.id = some p1 := by rw [hid1]; exact hga
    have hgb' : getPlayer db p2.id = some p2 := by rw [hid2]; exact hgb
    obtain ⟨v1, v2, hup⟩ := update_elo_eq_set_set db p1.id p2.id
      ((result_to_scores m.result).getD (1, 1)).1
      ((result_to_scores m.result).getD (1, 1)).2 t p1 p2 hga' hgb'
    rw [hup] at h
    cases h
    exact setPlayerElo_restore db p1.id p2.id p1 p2 v1 v2 hnd hga' hgb'

/-- The preview loop restores every rating it touches. -/
theorem previewLoop_frame (t : TournamentRow) :
    ∀ (ms : List MatchRow) (db : DB) (ch ch' : List (Nat × Int)) (db' : DB),
      (db.players.map PlayerRow.id).Nodup →
      previewLoop t db ch ms = Except.ok (db', ch') → db' = db := by
  intro ms
  induction ms with
  | nil =>
      intro db ch ch' db' hnd h
      simp only [previewLoop, Except.ok.injEq, Prod.mk.injEq] at h
      exact h.1.symm
  | cons m ms ih =>
      intro db ch ch' db' hnd h
      simp only [previewLoop] at h
      rcases hs : previewStep t m db ch with e | pr <;> rw [hs] at h
      · cases h
      obtain ⟨db2, ch2⟩ := pr
      have hdb2 : db2 = db := previewStep_frame t m db ch ch2 db2 hnd hs
      rw [hdb2] at h
      exact ih db ch2 ch' db' hnd h

/-- C5: the standings preview is idempotent and mutates no persisted rating.
When `tournament_standings` succeeds, the session state it hands back equals
the input state (every preview write was rolled back), so computing it again
yields the very same output; the handler commits nothing, and a raising
preview is rolled back, so persisted ratings are untouched in every case. -/
theorem standings_preview_idempotent_frame
    (db : DB) (tid : Nat) (rows : List StandingRow) (db' : DB)
    (hnd : (db.players.map PlayerRow.id).Nodup)
    (h : tournament_standings db tid = Except.ok (rows, db')) :
    db' = db ∧ tournament_standings db' tid = Except.ok (rows, db') := by
  have hdd : db' = db := by
    unfold tournament_standings at h
    rcases hg : getTournament db tid with _ | t <;> rw [hg] at h <;> dsimp only at h
    · cases h
    rcases hpl : previewLoop t db
        (dictInit ((playersOf db tid).map (fun p => p.id))) (matchesOf db tid)
      with e | pr <;> rw [hpl] at h <;> dsimp only at h
    · cases h
    obtain ⟨db1, changes⟩ := pr
    dsimp only at h
    simp only [Except.ok.injEq, Prod.mk.injEq] at h
    rw [← h.2]
    exact previewLoop_frame t (matchesOf db tid) db _ _ db1 hnd hpl
  subst hdd
  exact ⟨rfl, h⟩

/-- Witness state for C5: a pending imported tournament with one decisive
match between its two registered players. -/
def previewWitnessState : DB :=
  { players := [⟨1, 1000⟩, ⟨2, 1000⟩]
    tournaments := [⟨1, true, false, false, true, none, some "tok", none, none, none, 0⟩]
    tournamentPlayers := [⟨1, 1⟩, ⟨1, 2⟩]
    matchRows := [⟨1, 1, 1, some 1, some 2, "2-0"⟩]
    decks := []
    stores := []
    casualHistory := [] }

/-- Witness for C5 at a concrete state: the preview computes the standings
(with rating deltas 48 and -48 under the provisional multiplier) and hands
back exactly the state it was given, so a second computation returns the
same output. -/
theorem standings_preview_idempotent_frame_witness :
    (previewWitnessState.players.map PlayerRow.id).Nodup ∧
    (previewWitnessState = previewWitnessState ∧
      tournament_standings previewWitnessState 1 =
        Except.ok ([⟨1, 1, 0, 0, 3, 48⟩, ⟨2, 0, 0, 1, 0, -48⟩], previewWitnessState)) :=
  ⟨by decide,
    standings_preview_idempotent_frame previewWitnessState 1
      [⟨1, 1, 0, 0, 3, 48⟩, ⟨2, 0, 0, 1, 0, -48⟩] previewWitnessState
      (by decide) (by decide)⟩

/-- State for C6: a pending tournament whose match table stores the round-2
match (player 1 vs player 3) before the round-1 match (player 1 vs player 2);
player 1 is shared, so the application order matters to the deltas. -/
def misorderedState : DB :=
  { players := [⟨1, 1000⟩, ⟨2, 1000⟩, ⟨3, 1000⟩]
    tournaments := [⟨1, true, false, false, true, none, some "tok", none, none, none, 0⟩]
    tournamentPlayers := [⟨1, 1⟩, ⟨1, 2⟩, ⟨1, 3⟩]
    matchRows :=
      [⟨1, 1, 2, some 1, some 3, "2-0"⟩,
       ⟨2, 1, 1, some 1, some 2, "2-0"⟩]
    decks := []
    stores := []
    casualHistory := [] }

/-- C6: the claim says the preview applies the Rating Engine to the
tournament's matches in ascending round order (each match seeing the ratings
produced by earlier rounds) and that real finalization likewise applies the
engine per match in ascending round order.  But both `tournament_standings`
and `apply_top_cut` iterate `Match.query.filter_by(tournament_id=tid).all()`
— a query with no `order_by`, i.e. the stored row order, embedded as
`matchesOf` — while the recalculation (lines 5618/5631) does order by
`round_num`.  On `misorderedState` the list both endpoints fold over is
[round 2, round 1], not ascending round order, and its round-sorted
permutation differs; since player 1 is in both decisive matches, applying in
stored order makes round 1's opponent meet an already-shifted rating (under
the source's float arithmetic player 2's delta becomes round(96 * -0.4314) =
-41 instead of the round-order -48). -/
theorem finalize_and_preview_use_stored_match_order :
    (matchesOf misorderedState 1).map (fun m => m.roundNum) = [2, 1] ∧
    insSort (fun a b => a.roundNum ≤ b.roundNum) (matchesOf misorderedState 1) ≠
      matchesOf misorderedState 1 ∧
    (insSort (fun a b => a.roundNum ≤ b.roundNum) (matchesOf misorderedState 1)).map
      (fun m => m.roundNum) = [1, 2] ∧
    (matchesOf misorderedState 1).all (fun m => m.player1Id == some 1) = true := by
  decide

/-- A key is present in the `elo_changes` dict iff it is among the stored
first components. -/
theorem dictGet_isSome_iff (l : List (Nat × Int)) (j : Nat) :
    (dictGet l j).isSome = true ↔ ∃ kv ∈ l, kv.1 = j := by
  unfold dictGet
  constructor
  · intro h
    rcases hf : l.find? (fun kv => kv.1 == j) with _ | kv
    · rw [hf] at h
      cases h
    · exact ⟨kv, List.mem_of_find?_eq_some hf, by simpa using List.find?_some hf⟩
  · rintro ⟨kv, hkv, hp⟩
    have hs : (l.find? (fun x => x.1 == j)).isSome = true := by
      rw [List.find?_isSome]
      exact ⟨kv, hkv, by simpa using hp⟩
    rcases hf : l.find? (fun x => x.1 == j) with _ | kv2
    · rw [hf] at hs
      cases hs
    · rw [hf]
      rfl

/-- `dictSet` does not change the key set. -/
theorem dictSet_fst_map (l : List (Nat × Int)) (k : Nat) (v : Int) :
    (dictSet l k v).map (fun kv => kv.1) = l.map (fun kv => kv.1) := by
  unfold dictSet
  rw [List.map_map]
  refine List.map_congr_left ?_
  intro kv hkv
  by_cases h : kv.1 = k <;> simp [h]

theorem dictGet_isSome_iff_mem (l : List (Nat × Int)) (j : Nat) :
    (dictGet l j).isSome = true ↔ j ∈ l.map (fun kv => kv.1) := by
  rw [dictGet_isSome_iff, List.mem_map]

theorem dictGet_dictSet_isSome (l : List (Nat × Int)) (k : Nat) (v : Int) (j : Nat) :
    (dictGet (dictSet l k v) j).isSome = (dictGet l j).isSome := by
  by_cases h : (dictGet l j).isSome = true
  · rw [h]
    rw [dictGet_isSome_iff_mem, dictSet_fst_map]
    exact (dictGet_isSome_iff_mem l j).mp h
  · have h1 : (dictGet l j).isSome = false := by simpa using h
    rw [h1]
    by_cases h2 : (dictGet (dictSet l k v) j).isSome = true
    · exact absurd ((dictGet_isSome_iff_mem l j).mpr
        (by rw [← dictSet_fst_map l k v]; exact (dictGet_isSome_iff_mem _ j).mp h2)) h
    · simpa using h2

/-- The per-match condition under which the preview loop cannot raise: the
match either has no second player (it is skipped) or names two players that
exist and are both registered in the tournament. -/
def matchSafe (db : DB) (tid : Nat) (m : MatchRow) : Bool :=
  !m.player2Id.isSome ||
    (match m.player1Id, m.player2Id with
     | some a, some b =>
         ((playersOf db tid).map (fun p => p.id)).contains a &&
         ((playersOf db tid).map (fun p => p.id)).contains b &&
         (getPlayer db a).isSome && (getPlayer db b).isSome
     | _, _ => false)

/-- The whole-tournament safety condition. -/
def previewSafe (db : DB) (tid : Nat) : Bool :=
  (matchesOf db tid).all (matchSafe db tid)

/-- A safe preview step succeeds. -/
theorem previewStep_ok (t : TournamentRow) (db : DB) (tid : Nat) (m : MatchRow)
    (ch : List (Nat × Int))
    (hsafe : matchSafe db tid m = true)
    (hkeys : ∀ k, k ∈ (playersOf db tid).map (fun p => p.id) →
      (dictGet ch k).isSome = true) :
    ∃ pr, previewStep t m db ch = Except.ok pr := by
  unfold previewStep
  by_cases h2 : m.player2Id.isNone
  · rw [if_pos h2]
    exact ⟨_, rfl⟩
  · rw [if_neg h2]
    unfold matchSafe at hsafe
    rcases hm2 : m.player2Id with _ | b
    · rw [hm2] at h2
      simp at h2
    rcases hm1 : m.player1Id with _ | a
    · rw [hm1, hm2] at hsafe
      simp at hsafe
    rw [hm1, hm2] at hsafe
    simp only [Option.isSome_some, Bool.not_true, Bool.false_or, Bool.and_eq_true] at hsafe
    obtain ⟨⟨⟨hca, hcb⟩, hga⟩, hgb⟩ := hsafe
    obtain ⟨p1, hp1⟩ := Option.isSome_iff_exists.mp hga
    obtain ⟨p2, hp2⟩ := Option.isSome_iff_exists.mp hgb
    have hid1 : p1.id = a := by
      unfold getPlayer at hp1
      simpa using List.find?_some hp1
    have hid2 : p2.id = b := by
      unfold getPlayer at hp2
      simpa using List.find?_some hp2
    have hmem1 : p1.id ∈ (playersOf db tid).map (fun p => p.id) := by
      rw [hid1]
      simpa using hca
    have hmem2 : p2.id ∈ (playersOf db tid).map (fun p => p.id) := by
      rw [hid2]
      simpa using hcb
    simp only [Option.some_bind]
    rw [hp1, hp2]
    dsimp only
    obtain ⟨c1, hc1⟩ := Option.isSome_iff_exists.mp (hkeys p1.id hmem1)
    rw [hc1]
    dsimp only
    split
    · rename_i heq
      have hfalse : (dictGet (dictSet ch p1.id (c1 +
          ((((getPlayer (update_elo db p1.id p2.id
            ((result_to_scores m.result).getD (1, 1)).1
            ((result_to_scores m.result).getD (1, 1)).2 t) p1.id).getD p1).elo) - p1.elo)))
          p2.id).isSome = false := by
        rw [heq]
        rfl
      rw [dictGet_dictSet_isSome, hkeys p2.id hmem2] at hfalse
      cases hfalse
    · exact ⟨_, rfl⟩

/-- A preview step does not change the key set of the dict it threads. -/
theorem previewStep_keys (t : TournamentRow) (m : MatchRow) (db : DB)
    (ch ch2 : List (Nat × Int)) (db2 : DB)
    (h : previewStep t m db ch = Except.ok (db2, ch2)) :
    ch2.map (fun kv => kv.1) = ch.map (fun kv => kv.1) := by
  unfold previewStep at h
  by_cases h2 : m.player2Id.isNone
  · rw [if_pos h2] at h
    cases h
    rfl
  · rw [if_neg h2] at h
    rcases hp1 : m.player1Id.bind (getPlayer db) with _ | p1 <;>
      rcases hp2 : m.player2Id.bind (getPlayer db) with _ | p2 <;>
      rw [hp1, hp2] at h <;> dsimp only at h
    · cases h
    · cases h
    · cases h
    split at h
    · cases h
    split at h
    · cases h
    cases h
    rw [dictSet_fst_map, dictSet_fst_map]

/-- Under the safety condition and the player primary-key invariant, the
preview loop never raises. -/
theorem previewLoop_ok (t : TournamentRow) (db : DB) (tid : Nat)
    (hnd : (db.players.map PlayerRow.id).Nodup) :
    ∀ (ms : List MatchRow) (ch : List (Nat × Int)),
      (∀ m ∈ ms, matchSafe db tid m = true) →
      (∀ k, k ∈ (playersOf db tid).map (fun p => p.id) →
        (dictGet ch k).isSome = true) →
      ∃ pr, previewLoop t db ch ms = Except.ok pr := by
  intro ms
  induction ms with
  | nil => exact fun ch _ _ => ⟨_, rfl⟩
  | cons m ms ih =>
      intro ch hsafe hkeys
      obtain ⟨pr, hstep⟩ := previewStep_ok t db tid m ch (hsafe m (by simp)) hkeys
      obtain ⟨db2, ch2⟩ := pr
      have hdb2 : db2 = db := previewStep_frame t m db ch ch2 db2 hnd hstep
      have hkeys2 : ∀ k, k ∈ (playersOf db tid).map (fun p => p.id) →
          (dictGet ch2 k).isSome = true := by
        intro k hk
        rw [dictGet_isSome_iff_mem, previewStep_keys t m db ch ch2 db2 hstep,
          ← dictGet_isSome_iff_mem]
        exact hkeys k hk
      obtain ⟨out, hout⟩ := ih ch2 (fun x hx => hsafe x (by simp [hx])) hkeys2
      have hout2 : previewLoop t db2 ch2 ms = Except.ok out := by
        rw [hdb2]
        exact hout
      refine ⟨out, ?_⟩
      simp only [previewLoop]
      rw [hstep]
      exact hout2

/-- State for C7: one match between the two registered players with the
non-canonical outcome string "7-3". -/
def unknownOutcomeState : DB :=
  { players := [⟨1, 1000⟩, ⟨2, 1000⟩]
    tournaments := [⟨1, true, false, false, true, none, some "tok", none, none, none, 0⟩]
    tournamentPlayers := [⟨1, 1⟩, ⟨1, 2⟩]
    matchRows := [⟨1, 1, 1, some 1, some 2, "7-3"⟩]
    decks := []
    stores := []
    casualHistory := [] }

/-- State for C7: a match whose first player (id 5) exists in the database
but is not in the tournament's players set. -/
def foreignPlayerState : DB :=
  { players := [⟨1, 1000⟩, ⟨5, 1000⟩]
    tournaments := [⟨1, true, false, false, true, none, some "tok", none, none, none, 0⟩]
    tournamentPlayers := [⟨1, 1⟩]
    matchRows := [⟨1, 1, 1, some 5, some 1, "2-0"⟩]
    decks := []
    stores := []
    casualHistory := [] }

/-- C7 (counterexample): the claim says the standings computation never
fails — a match referencing a player not in the supplied players set is
skipped without raising — and that a match with an unknown outcome counts as
a draw (1 point per named side).  Both parts fail on the code: a match with
outcome "7-3" falls into the points loop's final `else`, counting a loss
and 0 points for each named player (not a draw and 1 point), and a match
naming a player outside the players set raises a `KeyError` on the
`elo_changes` dict inside the rating-delta preview, aborting the whole
computation. -/
theorem standings_defensive_policy_cex :
    tournament_standings unknownOutcomeState 1 =
      Except.ok ([⟨1, 0, 0, 1, 0, 0⟩, ⟨2, 0, 0, 1, 0, 0⟩], unknownOutcomeState) ∧
    tournament_standings foreignPlayerState 1 = Except.error "KeyError" := by
  decide

/-- C7 (amended): the standings computation can raise — it succeeds whenever
every match with a second player names two existing players registered in the
tournament (the `previewSafe` condition; the per-player points loop itself
skips matches naming outside players without raising, as the success output
shows), but a match naming a player outside the players set raises a
`KeyError` in the rating-delta preview; and a match with an unknown outcome
string involving a player is counted as a loss (0 points) for that player in
the points computation, not as a draw. -/
theorem standings_defensive_policy_amended :
    (∀ db tid t, getTournament db tid = some t →
      (db.players.map PlayerRow.id).Nodup →
      previewSafe db tid = true →
      ∃ out, tournament_standings db tid = Except.ok out) ∧
    (∀ (p : PlayerRow) (s : StatAcc) (m : MatchRow),
      (m.player1Id == some p.id || m.player2Id == some p.id) = true →
      m.result ∉ (["bye", "2-0", "2-1", "1-0", "0-2", "1-2", "0-1", "1-1"] : List String) →
      statsStep p s m = { s with losses := s.losses + 1 }) := by
  constructor
  · intro db tid t hg hnd hsafe
    unfold tournament_standings
    rw [hg]
    dsimp only
    unfold previewSafe at hsafe
    have hall : ∀ m ∈ matchesOf db tid, matchSafe db tid m = true :=
      fun m hm => List.all_eq_true.mp hsafe m hm
    have hkeys : ∀ k, k ∈ (playersOf db tid).map (fun p => p.id) →
        (dictGet (dictInit ((playersOf db tid).map (fun p => p.id))) k).isSome = true := by
      intro k hk
      rw [dictGet_isSome_iff]
      exact ⟨(k, 0), List.mem_map_of_mem _ hk, rfl⟩
    obtain ⟨pr, hpr⟩ := previewLoop_ok t db tid hnd (matchesOf db tid) _ hall hkeys
    obtain ⟨db1, changes⟩ := pr
    rw [hpr]
    exact ⟨_, rfl⟩
  · intro p s m hmem hres
    have e1 : (m.result == "bye") = false := by
      simpa using fun hh => hres (by rw [hh]; simp)
    have e2 : (m.result == "2-0") = false := by
      simpa using fun hh => hres (by rw [hh]; simp)
    have e3 : (m.result == "2-1") = false := by
      simpa using fun hh => hres (by rw [hh]; simp)
    have e4 : (m.result == "1-0") = false := by
      simpa using fun hh => hres (by rw [hh]; simp)
    have e5 : (m.result == "0-2") = false := by
      simpa using fun hh => hres (by rw [hh]; simp)
    have e6 : (m.result == "1-2") = false := by
      simpa using fun hh => hres (by rw [hh]; simp)
    have e7 : (m.result == "0-1") = false := by
      simpa using fun hh => hres (by rw [hh]; simp)
    have e8 : (m.result == "1-1") = false := by
      simpa using fun hh => hres (by rw [hh]; simp)
    unfold statsStep
    simp only [hmem, if_true, e1, e2, e3, e4, e5, e6, e7, e8, Bool.false_and,
      Bool.false_or, Bool.or_self, Bool.and_self, Bool.false_eq_true, if_false]

/-- Witness for the amended C7 theorem: `previewWitnessState` satisfies the
safety condition, so its standings succeed, and the unknown outcome "7-3"
adds exactly one loss and no points for an involved player. -/
theorem standings_defensive_policy_amended_witness :
    previewSafe previewWitnessState 1 = true ∧
    (∃ out, tournament_standings previewWitnessState 1 = Except.ok out) ∧
    statsStep ⟨1, 1000⟩ ⟨0, 0, 0, 0⟩ ⟨1, 1, 1, some 1, some 2, "7-3"⟩ = ⟨0, 0, 1, 0⟩ :=
  ⟨by decide,
    standings_defensive_policy_amended.1 previewWitnessState 1
      ⟨1, true, false, false, true, none, some "tok", none, none, none, 0⟩
      (by decide) (by decide) (by decide),
    standings_defensive_policy_amended.2 ⟨1, 1000⟩ ⟨0, 0, 0, 0⟩
      ⟨1, 1, 1, some 1, some 2, "7-3"⟩ (by decide) (by decide)⟩

/-- C8: the lifecycle transitions behave as claimed. (1) A pending
tournament can never enter edit mode: `edit_tournament` rejects it (either
for permissions or because it is pending), changing neither the database nor
the session, so no edit token is minted. (2) A finalized tournament enters
edit mode only by minting the fresh token generated this request: on
success the tournament row carries exactly that fresh token and the session
stores it. (3) Finalizing a tournament that is no longer pending is
rejected cleanly: `apply_top_cut` returns with the state untouched (no
rating applied) and without the success outcome. (4) Discarding a
tournament that is no longer pending deletes nothing. -/
theorem lifecycle_transition_guards :
    (∀ db user sess tid fresh t, getTournament db tid = some t → t.pending = true →
      (edit_tournament db user sess tid fresh).2.1 = db ∧
      (edit_tournament db user sess tid fresh).2.2 = sess ∧
      ((edit_tournament db user sess tid fresh).1 = EditOutcome.forbidden ∨
        (edit_tournament db user sess tid fresh).1 = EditOutcome.stillPending)) ∧
    (∀ db user sess tid fresh t, getTournament db tid = some t → t.pending = false →
      (user.isAdmin || t.userId == some user.userId) = true →
      (getTournament (edit_tournament db user sess tid fresh).2.1 tid).map
        (fun u => u.editToken) = some (some fresh) ∧
      sessGet (edit_tournament db user sess tid fresh).2.2.editTokens tid = some fresh) ∧
    (∀ db user tid cut t, getTournament db tid = some t → t.pending = false →
      (apply_top_cut db user tid cut).2 = db ∧
      ∀ w, (apply_top_cut db user tid cut).1 ≠ FinalizeOutcome.ok w) ∧
    (∀ db user tid t, getTournament db tid = some t → t.pending = false →
      (discard_tournament db user tid).2 = db ∧
      (discard_tournament db user tid).1 ≠ DiscardOutcome.deleted) := by
  refine ⟨?_, ?_, ?_, ?_⟩
  · intro db user sess tid fresh t hfind hp
    unfold edit_tournament
    rw [hfind]
    by_cases hce : (user.isAdmin || t.userId == some user.userId) = true
    · simp [hce, hp]
    · have hce' : (user.isAdmin || t.userId == some user.userId) = false := by simpa using hce
      simp [hce']
  · intro db user sess tid fresh t hfind hp hrole
    have hid : t.id = tid := by
      unfold getTournament at hfind
      simpa using List.find?_some hfind
    have hsess : sessGet (sessSet sess.editTokens tid fresh) tid = some fresh := by
      unfold sessGet sessSet
      simp
    unfold edit_tournament
    rw [hfind]
    simp only [hrole, Bool.not_true, Bool.false_eq_true, if_false, hp]
    by_cases himp : t.importedFromText = true
    · simp only [himp, Bool.not_true, Bool.false_eq_true, if_false]
      refine ⟨?_, hsess⟩
      rw [getTournament_updTournament db tid
        (fun u => { u with editToken := some fresh }) (fun u => rfl) tid, hfind]
      simp [hid]
    · have himp' : t.importedFromText = false := by simpa using himp
      simp only [himp', Bool.not_false, if_true]
      by_cases hcas : t.casual = true
      · simp only [hcas, Bool.not_true, Bool.false_eq_true, if_false]
        refine ⟨?_, hsess⟩
        rw [getTournament_updTournament db tid
          (fun u => { u with editToken := some fresh }) (fun u => rfl) tid, hfind]
        simp [hid]
      · have hcas' : t.casual = false := by simpa using hcas
        simp only [hcas', Bool.not_false, if_true]
        refine ⟨?_, hsess⟩
        rw [getTournament_updTournament (updTournament db tid
              (fun u => { u with editToken := some fresh })) tid
            (fun u => { u with casual := true }) (fun u => rfl) tid,
          getTournament_updTournament db tid
            (fun u => { u with editToken := some fresh }) (fun u => rfl) tid, hfind]
        simp [hid]
  · intro db user tid cut t hfind hp
    unfold apply_top_cut
    rw [hfind]
    by_cases hro : (user.isAdmin || user.isScorekeeper) = true
    · simp [hro, hp]
    · have hro' : (user.isAdmin || user.isScorekeeper) = false := by simpa using hro
      simp [hro']
  · intro db user tid t hfind hp
    unfold discard_tournament
    rw [hfind]
    by_cases hro : (user.isAdmin || user.isScorekeeper) = true
    · simp [hro, hp]
    · have hro' : (user.isAdmin || user.isScorekeeper) = false := by simpa using hro
      simp [hro']

/-- Witness for C8 on `tokenlessState` (tournament 1 pending, tournament 2
finalized): editing pending tournament 1 is rejected without minting a
token; editing finalized tournament 2 mints exactly the fresh token "f";
finalizing or discarding the no-longer-pending tournament 2 is rejected with
no state change. -/
theorem lifecycle_transition_guards_witness :
    ((edit_tournament tokenlessState adminUser ⟨[], []⟩ 1 "f").2.1 = tokenlessState ∧
      (edit_tournament tokenlessState adminUser ⟨[], []⟩ 1 "f").2.2 = (⟨[], []⟩ : Sess) ∧
      ((edit_tournament tokenlessState adminUser ⟨[], []⟩ 1 "f").1 = EditOutcome.forbidden ∨
        (edit_tournament tokenlessState adminUser ⟨[], []⟩ 1 "f").1 =
          EditOutcome.stillPending)) ∧
    ((getTournament (edit_tournament tokenlessState adminUser ⟨[], []⟩ 2 "f").2.1 2).map
        (fun u => u.editToken) = some (some "f") ∧
      sessGet (edit_tournament tokenlessState adminUser ⟨[], []⟩ 2 "f").2.2.editTokens 2 =
        some "f") ∧
    ((apply_top_cut tokenlessState adminUser 2 none).2 = tokenlessState ∧
      ∀ w, (apply_top_cut tokenlessState adminUser 2 none).1 ≠ FinalizeOutcome.ok w) ∧
    ((discard_tournament tokenlessState adminUser 2).2 = tokenlessState ∧
      (discard_tournament tokenlessState adminUser 2).1 ≠ DiscardOutcome.deleted) :=
  ⟨lifecycle_transition_guards.1 tokenlessState adminUser ⟨[], []⟩ 1 "f"
      ⟨1, true, false, false, true, none, some "secret", none, none, none, 0⟩
      (by decide) (by decide),
    lifecycle_transition_guards.2.1 tokenlessState adminUser ⟨[], []⟩ 2 "f"
      ⟨2, false, false, false, true, none, none, some "stale", none, none, 5⟩
      (by decide) (by decide) (by decide),
    lifecycle_transition_guards.2.2.1 tokenlessState adminUser 2 none
      ⟨2, false, false, false, true, none, none, some "stale", none, none, 5⟩
      (by decide) (by decide),
    lifecycle_transition_guards.2.2.2 tokenlessState adminUser 2
      ⟨2, false, false, false, true, none, none, some "stale", none, none, 5⟩
      (by decide) (by decide)⟩

theorem consumeStoreToken_tournaments (db : DB) (t : TournamentRow) :
    (consumeStoreToken db t).tournaments = db.tournaments := by
  unfold consumeStoreToken
  repeat' split
  all_goals rfl

theorem finalizeMatchStep_tournaments (t : TournamentRow) (db : DB) (m : MatchRow) :
    (finalizeMatchStep t db m).tournaments = db.tournaments := by
  unfold finalizeMatchStep
  repeat' split
  all_goals first | rfl | apply update_elo_tournaments

theorem foldl_finalizeMatchStep_tournaments (t : TournamentRow) :
    ∀ (ms : List MatchRow) (db : DB),
      ((ms.foldl (finalizeMatchStep t) db).tournaments) = db.tournaments
  | [], _ => rfl
  | m :: ms, db => by
      rw [List.foldl_cons,
        foldl_finalizeMatchStep_tournaments t ms (finalizeMatchStep t db m),
        finalizeMatchStep_tournaments]

/-- `default_top_cut` is clamped to the player count. -/
theorem default_top_cut_le (n : Nat) : default_top_cut n ≤ n := by
  unfold default_top_cut
  exact min_le_right _ _

/-- The tournament row after the success path of `apply_top_cut` carries the
chosen top cut (the Elo fold, the store-token consumption and the
pending/confirm-token update leave `top_cut` alone). -/
theorem topCut_after_apply (db : DB) (tid : Nat) (v : Int) (t : TournamentRow)
    (hfind : getTournament db tid = some t) (hid : t.id = tid) :
    (getTournament (updTournament (consumeStoreToken ((matchesOf db tid).foldl
        (finalizeMatchStep t) (updTournament db tid (fun u => { u with topCut := some v }))) t)
        tid (fun u => { u with pending := false, confirmToken := none })) tid).map
      (fun u => u.topCut) = some (some v) := by
  rw [getTournament_updTournament _ tid
    (fun u => { u with pending := false, confirmToken := none }) (fun u => rfl) tid]
  have h3 : getTournament (consumeStoreToken ((matchesOf db tid).foldl (finalizeMatchStep t)
        (updTournament db tid (fun u => { u with topCut := some v }))) t) tid =
      getTournament (updTournament db tid (fun u => { u with topCut := some v })) tid := by
    unfold getTournament
    rw [consumeStoreToken_tournaments, foldl_finalizeMatchStep_tournaments]
  rw [h3, getTournament_updTournament db tid
    (fun u => { u with topCut := some v }) (fun u => rfl) tid, hfind]
  simp [hid]

/-- The ids of the joined player rows form a sublist of the membership-edge
player ids (missing player rows are dropped by the join). -/
theorem playersOf_ids_sublist (db : DB) :
    ∀ l : List TournamentPlayerRow,
      ((l.filterMap (fun tp => getPlayer db tp.playerId)).map (fun p => p.id)).Sublist
        (l.map (fun tp => tp.playerId))
  | [] => List.Sublist.refl _
  | tp :: l => by
      rcases hg : getPlayer db tp.playerId with _ | p
      · rw [List.filterMap_cons, hg, List.map_cons]
        exact (playersOf_ids_sublist db l).cons _
      · rw [List.filterMap_cons, hg, List.map_cons, List.map_cons]
        have hpid : p.id = tp.playerId := by
          unfold getPlayer at hg
          simpa using List.find?_some hg
        rw [hpid]
        exact (playersOf_ids_sublist db l).cons₂ _

/-- C9: the top-cut policy of finalization.  With no caller-supplied input
the stored `top_cut` is the tier-table default keyed by the number of
distinct players (the join's row count, distinct by the membership-edge
uniqueness invariant, first conjunct); a supplied value exceeding the player
count is replaced by that default with the warning flash; the stored value
never exceeds the player count; and the tier table puts 9 players in the
9-16 bracket with a cut of 4. -/
theorem apply_top_cut_policy
    (db : DB) (user : Caller) (tid : Nat) (cut : Option Int) (t : TournamentRow)
    (hfind : getTournament db tid = some t)
    (hrole : (user.isAdmin || user.isScorekeeper) = true)
    (hpending : t.pending = true)
    (hedges : ((db.tournamentPlayers.filter (fun tp => tp.tournamentId == tid)).map
      (fun tp => tp.playerId)).Nodup) :
    ((playersOf db tid).map (fun p => p.id)).Nodup ∧
    (cut = none →
      (getTournament (apply_top_cut db user tid cut).2 tid).map (fun u => u.topCut) =
        some (some ((default_top_cut (playersOf db tid).length : Int))) ∧
      (apply_top_cut db user tid cut).1 = FinalizeOutcome.ok false) ∧
    (∀ c : Int, cut = some c → ((playersOf db tid).length : Int) < c →
      (getTournament (apply_top_cut db user tid cut).2 tid).map (fun u => u.topCut) =
        some (some ((default_top_cut (playersOf db tid).length : Int))) ∧
      (apply_top_cut db user tid cut).1 = FinalizeOutcome.ok true) ∧
    (∀ tc : Int, (getTournament (apply_top_cut db user tid cut).2 tid).map
        (fun u => u.topCut) = some (some tc) → tc ≤ ((playersOf db tid).length : Int)) ∧
    default_top_cut 9 = 4 := by
  have hid : t.id = tid := by
    unfold getTournament at hfind
    simpa using List.find?_some hfind
  have hnd : ((playersOf db tid).map (fun p => p.id)).Nodup := by
    have hsub := playersOf_ids_sublist db
      (db.tournamentPlayers.filter (fun tp => tp.tournamentId == tid))
    exact hsub.nodup hedges
  rcases cut with _ | c
  · have hmap : (getTournament (apply_top_cut db user tid none).2 tid).map
        (fun u => u.topCut) =
        some (some ((default_top_cut (playersOf db tid).length : Int))) := by
      unfold apply_top_cut
      rw [hfind]
      simp only [hrole, hpending, Bool.not_true, Bool.false_eq_true, if_false]
      exact topCut_after_apply db tid _ t hfind hid
    have hout : (apply_top_cut db user tid none).1 = FinalizeOutcome.ok false := by
      unfold apply_top_cut
      rw [hfind]
      simp only [hrole, hpending, Bool.not_true, Bool.false_eq_true, if_false]
    refine ⟨hnd, fun _ => ⟨hmap, hout⟩, fun c hc => absurd hc (by simp), ?_, by decide⟩
    intro tc htc
    have heq := hmap.symm.trans htc
    simp only [Option.some.injEq] at heq
    rw [← heq]
    exact_mod_cast default_top_cut_le _
  · by_cases hb : ((playersOf db tid).length : Int) < c
    · have hmap : (getTournament (apply_top_cut db user tid (some c)).2 tid).map
          (fun u => u.topCut) =
          some (some ((default_top_cut (playersOf db tid).length : Int))) := by
        unfold apply_top_cut
        rw [hfind]
        simp only [hrole, hpending, Bool.not_true, Bool.false_eq_true, if_false]
        rw [if_pos hb]
        exact topCut_after_apply db tid _ t hfind hid
      have hout : (apply_top_cut db user tid (some c)).1 = FinalizeOutcome.ok true := by
        unfold apply_top_cut
        rw [hfind]
        simp only [hrole, hpending, Bool.not_true, Bool.false_eq_true, if_false]
        rw [if_pos hb]
      refine ⟨hnd, fun hc => absurd hc (by simp), fun c2 hc2 _ => ?_, ?_, by decide⟩
      · obtain rfl : c2 = c := by simpa using hc2.symm
        exact ⟨hmap, hout⟩
      · intro tc htc
        have heq := hmap.symm.trans htc
        simp only [Option.some.injEq] at heq
        rw [← heq]
        exact_mod_cast default_top_cut_le _
    · have hmap : (getTournament (apply_top_cut db user tid (some c)).2 tid).map
          (fun u => u.topCut) = some (some c) := by
        unfold apply_top_cut
        rw [hfind]
        simp only [hrole, hpending, Bool.not_true, Bool.false_eq_true, if_false]
        rw [if_neg hb]
        exact topCut_after_apply db tid _ t hfind hid
      refine ⟨hnd, fun hc => absurd hc (by simp), fun c2 hc2 hgt => ?_, ?_, by decide⟩
      · obtain rfl : c2 = c := by simpa using hc2.symm
        exact absurd hgt hb
      · intro tc htc
        have heq := hmap.symm.trans htc
        simp only [Option.some.injEq] at heq
        rw [← heq]
        omega

/-- Witness state for C9: a pending imported tournament with nine registered
players and no matches. -/
def topCutState : DB :=
  { players := (List.range 9).map (fun i => ⟨i + 1, 1000⟩)
    tournaments := [⟨1, true, false, false, true, none, some "tok", none, none, none, 0⟩]
    tournamentPlayers := (List.range 9).map (fun i => ⟨1, i + 1⟩)
    matchRows := []
    decks := []
    stores := []
    casualHistory := [] }

/-- Witness for C9 at the nine-player state: finalizing with no top-cut
input stores the tier default 4, and the over-large input 12 is replaced by
4 with the warning. -/
theorem apply_top_cut_policy_witness :
    (playersOf topCutState 1).length = 9 ∧
    (getTournament (apply_top_cut topCutState adminUser 1 none).2 1).map
      (fun u => u.topCut) = some (some 4) ∧
    (apply_top_cut topCutState adminUser 1 none).1 = FinalizeOutcome.ok false ∧
    (getTournament (apply_top_cut topCutState adminUser 1 (some 12)).2 1).map
      (fun u => u.topCut) = some (some 4) ∧
    (apply_top_cut topCutState adminUser 1 (some 12)).1 = FinalizeOutcome.ok true := by
  have h0 := apply_top_cut_policy topCutState adminUser 1 none
    ⟨1, true, false, false, true, none, some "tok", none, none, none, 0⟩
    (by decide) (by decide) (by decide) (by decide)
  have h12 := apply_top_cut_policy topCutState adminUser 1 (some 12)
    ⟨1, true, false, false, true, none, some "tok", none, none, none, 0⟩
    (by decide) (by decide) (by decide) (by decide)
  refine ⟨by decide, ?_, (h0.2.1 rfl).2, ?_, (h12.2.2.1 12 rfl (by decide)).2⟩
  · rw [(h0.2.1 rfl).1]
    decide
  · rw [(h12.2.2.1 12 rfl (by decide)).1]
    decide

/-- The edit loop never changes a match's id or tournament. -/
theorem applyChange_id_tid (tid : Nat) (acc : DB) (ch : Nat × Int) :
    (applyChange tid acc ch).matchRows.map (fun m => (m.id, m.tournamentId)) =
      acc.matchRows.map (fun m => (m.id, m.tournamentId)) := by
  unfold applyChange
  split
  · rfl
  split
  · rfl
  rw [List.map_map]
  refine List.map_congr_left ?_
  intro mr hmr
  by_cases hmi : mr.id = ch.1 <;> simp [hmi]

theorem applyChange_idList (tid : Nat) (acc : DB) (ch : Nat × Int) :
    (applyChange tid acc ch).matchRows.map (fun m => m.id) =
      acc.matchRows.map (fun m => m.id) := by
  have h := applyChange_id_tid tid acc ch
  have h1 := congrArg (List.map (fun pr : Nat × Nat => pr.1)) h
  rw [List.map_map, List.map_map] at h1
  exact h1

/-- Every row after one edit step traces back to a row of the input with the
same id and tournament, and either an unchanged result or one of the three
canonical edit results. -/
theorem applyChange_mem (tid : Nat) (acc : DB) (ch : Nat × Int) :
    ∀ m1 ∈ (applyChange tid acc ch).matchRows, ∃ m0 ∈ acc.matchRows,
      m0.id = m1.id ∧ m0.tournamentId = m1.tournamentId ∧
      (m1.result = m0.result ∨
        (m1.result = "2-0" ∨ m1.result = "0-2" ∨ m1.result = "1-1")) := by
  intro m1 hm1
  unfold applyChange at hm1
  split at hm1
  · exact ⟨m1, hm1, rfl, rfl, Or.inl rfl⟩
  split at hm1
  · exact ⟨m1, hm1, rfl, rfl, Or.inl rfl⟩
  dsimp only at hm1
  obtain ⟨m0, hm0, hmap⟩ := List.mem_map.mp hm1
  by_cases hmi : (m0.id == ch.1) = true
  · rw [if_pos hmi] at hmap
    refine ⟨m0, hm0, by rw [← hmap], by rw [← hmap], Or.inr ?_⟩
    rw [← hmap]
    by_cases h1 : (ch.2 == 1) = true
    · simp [h1]
    · by_cases h2 : (ch.2 == 2) = true <;> simp [h1, h2]
  · rw [if_neg hmi] at hmap
    exact ⟨m0, hm0, by rw [hmap], by rw [hmap], Or.inl (by rw [hmap])⟩

/-- Same tracing property for the whole edit fold. -/
theorem foldChanges_mem (tid : Nat) :
    ∀ (l : List (Nat × Int)) (acc : DB),
      ∀ m1 ∈ (l.foldl (applyChange tid) acc).matchRows, ∃ m0 ∈ acc.matchRows,
        m0.id = m1.id ∧ m0.tournamentId = m1.tournamentId ∧
        (m1.result = m0.result ∨
          (m1.result = "2-0" ∨ m1.result = "0-2" ∨ m1.result = "1-1"))
  | [], _ => fun m1 hm1 => ⟨m1, hm1, rfl, rfl, Or.inl rfl⟩
  | ch :: l, acc => by
      intro m1 hm1
      rw [List.foldl_cons] at hm1
      obtain ⟨mm, hmm, hid, htid, hres⟩ := foldChanges_mem tid l (applyChange tid acc ch) m1 hm1
      obtain ⟨m0, hm0, hid0, htid0, hres0⟩ := applyChange_mem tid acc ch mm hmm
      refine ⟨m0, hm0, hid0.trans hid, htid0.trans htid, ?_⟩
      rcases hres with h | h
      · rcases hres0 with h0 | h0
        · exact Or.inl (h.trans h0)
        · exact Or.inr (by rw [h]; exact h0)
      · exact Or.inr h

/-- After an edit step that targets match id `ch.1`, every row of this
tournament bearing that id carries a canonical result (uses the match
primary-key invariant). -/
theorem applyChange_hits_canonical (tid : Nat) (acc : DB) (ch : Nat × Int)
    (hnd : (acc.matchRows.map (fun m => m.id)).Nodup) :
    ∀ m1 ∈ (applyChange tid acc ch).matchRows, m1.id = ch.1 → m1.tournamentId = tid →
      m1.result = "2-0" ∨ m1.result = "0-2" ∨ m1.result = "1-1" := by
  intro m1 hm1 hid htid
  unfold applyChange at hm1
  rcases hf : acc.matchRows.find? (fun m => m.id == ch.1) with _ | m <;>
    rw [hf] at hm1 <;> dsimp only at hm1
  · exact absurd (by simpa using List.find?_eq_none.mp hf m1 hm1)
      (by simpa using hid)
  by_cases hskip : (m.tournamentId != tid) = true
  · rw [if_pos hskip] at hm1
    have hm1m : m1 = m :=
      eq_of_mem_of_find?_nodup (fun m => m.id) hnd hf m1 hm1 hid
    rw [hm1m] at htid
    simp [htid] at hskip
  · rw [if_neg hskip] at hm1
    dsimp only at hm1
    obtain ⟨m0, hm0, hmap⟩ := List.mem_map.mp hm1
    by_cases hmi : (m0.id == ch.1) = true
    · rw [if_pos hmi] at hmap
      rw [← hmap]
      by_cases h1 : (ch.2 == 1) = true
      · simp [h1]
      · by_cases h2 : (ch.2 == 2) = true <;> simp [h1, h2]
    · rw [if_neg hmi] at hmap
      rw [hmap] at hmi
      exact absurd (by simpa using hid) (by simpa using hmi)

/-- Main fold invariant for C10. -/
theorem foldChanges_canonical (tid : Nat) :
    ∀ (l : List (Nat × Int)) (acc : DB),
      (acc.matchRows.map (fun m => m.id)).Nodup →
      ∀ m1 ∈ (l.foldl (applyChange tid) acc).matchRows, m1.tournamentId = tid →
        m1.id ∈ l.map (fun ch => ch.1) →
        m1.result = "2-0" ∨ m1.result = "0-2" ∨ m1.result = "1-1"
  | [], _ => fun _ _ _ _ h => absurd h (by simp)
  | ch :: l, acc => by
      intro hnd m1 hm1 htid hin
      rw [List.foldl_cons] at hm1
      have hnd2 : ((applyChange tid acc ch).matchRows.map (fun m => m.id)).Nodup := by
        rw [applyChange_idList]
        exact hnd
      by_cases hmem : m1.id ∈ l.map (fun c => c.1)
      · exact foldChanges_canonical tid l (applyChange tid acc ch) hnd2 m1 hm1 htid hmem
      · have hide : m1.id = ch.1 := by
          rw [List.map_cons] at hin
          rcases List.mem_cons.mp hin with h | h
          · exact h
          · exact absurd h hmem
        obtain ⟨mm, hmm, hid, htid2, hres⟩ :=
          foldChanges_mem tid l (applyChange tid acc ch) m1 hm1
        rcases hres with h | h
        · rw [h]
          exact applyChange_hits_canonical tid acc ch hnd mm hmm
            (by rw [hid, hide]) (by rw [htid2, htid])
        · exact h

/-- C10: every match actually edited by `update_match_results` (named in the
committed changes and belonging to this tournament) ends with result "2-0",
"0-2" or "1-1" — an edit can never store a margin outcome such as "2-1"
(uses the match primary-key invariant). -/
theorem edited_match_results_canonical
    (db : DB) (user : Caller) (sess : Sess) (tid : Nat) (changes : List (Nat × Int))
    (db' : DB) (hnd : (db.matchRows.map (fun m => m.id)).Nodup)
    (h : update_match_results db user sess tid changes = (UpdateOutcome.ok, db')) :
    ∀ m1 ∈ db'.matchRows, m1.tournamentId = tid → m1.id ∈ changes.map (fun ch => ch.1) →
      m1.result = "2-0" ∨ m1.result = "0-2" ∨ m1.result = "1-1" := by
  have hdb : db' = changes.foldl (applyChange tid) db := by
    unfold update_match_results at h
    rcases hg : getTournament db tid with _ | t <;> rw [hg] at h <;> dsimp only at h
    · simp at h
    by_cases hce : (user.isAdmin || t.userId == some user.userId) = true
    · simp only [hce, Bool.not_true, Bool.false_eq_true, if_false] at h
      rcases het : t.editToken with _ | tok <;> rw [het] at h <;> dsimp only at h
      · simp at h
      by_cases htk : (tok == "") = true
      · rw [if_pos htk] at h
        simp at h
      · rw [if_neg htk] at h
        rcases hsg : sessGet sess.editTokens tid with _ | s0 <;>
          rw [hsg] at h <;> dsimp only at h
        · simp at h
        by_cases hbad : (s0 == "" || s0 != tok) = true
        · rw [if_pos hbad] at h
          simp at h
        · rw [if_neg hbad] at h
          simp only [Prod.mk.injEq] at h
          exact h.2.symm
    · have hce' : (user.isAdmin || t.userId == some user.userId) = false := by simpa using hce
      simp only [hce', Bool.not_false, if_true] at h
      simp at h
  rw [hdb]
  exact fun m1 hm1 htid hin => foldChanges_canonical tid changes db hnd m1 hm1 htid hin

/-- Witness state for C10: a finalized imported tournament in edit mode
(token "tk") whose single match currently stores the margin result "2-1". -/
def editWitnessState : DB :=
  { players := [⟨1, 1000⟩, ⟨2, 1000⟩]
    tournaments :=
      [⟨1, false, false, false, true, none, none, some "tk", none, some "owner", 0⟩]
    tournamentPlayers := [⟨1, 1⟩, ⟨1, 2⟩]
    matchRows := [⟨5, 1, 1, some 1, some 2, "2-1"⟩]
    decks := []
    stores := []
    casualHistory := [] }

/-- Session presenting the active edit token of `editWitnessState`. -/
def editSess : Sess := ⟨[(1, "tk")], []⟩

/-- `editWitnessState` after the edit selecting winner 1 for match 5. -/
def editedState : DB :=
  { editWitnessState with matchRows := [⟨5, 1, 1, some 1, some 2, "2-0"⟩] }

/-- Witness for C10: the committed edit turns the stored "2-1" into "2-0",
and every edited match of the tournament carries a canonical result. -/
theorem edited_match_results_canonical_witness :
    (editWitnessState.matchRows.map (fun m => m.id)).Nodup ∧
    update_match_results editWitnessState ownerUser editSess 1 [(5, 1)] =
      (UpdateOutcome.ok, editedState) ∧
    (∀ m1 ∈ editedState.matchRows, m1.tournamentId = 1 →
      m1.id ∈ ([(5, (1 : Int))] : List (Nat × Int)).map (fun ch => ch.1) →
      m1.result = "2-0" ∨ m1.result = "0-2" ∨ m1.result = "1-1") :=
  ⟨by decide, by decide,
    edited_match_results_canonical editWitnessState ownerUser editSess 1 [(5, 1)]
      editedState (by decide) (by decide)⟩

end Bazaar
